import Mathlib

/-!
Verification of the media-toolkit job/file lifecycle core.

This file shallowly embeds the relevant functions of the repository:
the filename allocator `getUniqueFilename`, the retryable deleter
`safeUnlink` (fileCleanup.js variant and the processor variant), the
lifecycle sweep `cleanupExpiredFiles`, the archive assembler
`createArchive`, the video command builder of `processVideo`, and the
image batch orchestrator `processImages` together with `optimizeSVGs`
and `processWithImageMagick`.

External codec collaborators (sharp, svgo, ImageMagick, ffmpeg) and the
underlying filesystem are modelled as explicit oracles: an encoder call
is a function from (source, format) to an `Except`-style outcome, the
shared uploads directory is a finite list of filenames, and time is
explicit. Numeric display uses exact rationals in place of JS floats.

Layout: all definitions first, then all theorems.
-/

/-! # Definitions -/

/-! ## Decimal digit decoding (used to reason about `Nat.repr`) -/

/-- Decode one decimal digit character. -/
def decodeDigit (c : Char) : Nat := c.toNat - 48

/-- Decode a list of decimal digit characters, most significant first. -/
def decodeNum (l : List Char) : Nat := l.foldl (fun a c => 10 * a + decodeDigit c) 0

/-! ## Filename Allocator (`getUniqueFilename`, identical in
svgProcessor.js, imageProcessor.js, imageMagickProcessor.js and
videoProcessor.js).

The JS loop probes `base.ext`, `base_1.ext`, `base_2.ext`, ... against
the directory and returns the first name that does not exist. The
directory is modelled as the finite list of names it currently holds;
the unbounded `while (true)` loop is run with fuel `D.length + 1`,
which is proved sufficient in the theorems section. -/

/-- Candidate name number `k` probed by the allocator: `base.ext` for
`k = 0`, `base_k.ext` for `k ≥ 1`. -/
def candT (base ext : String) (k : Nat) : String :=
  if k = 0 then base ++ "." ++ ext else base ++ "_" ++ Nat.repr k ++ "." ++ ext

/-- The probing loop of `getUniqueFilename`, with explicit fuel. The
JS source loops `while (true)`; fuel `D.length + 1` is always enough
(`getUniqueFilename_spec`). -/
def getUniqueFrom (D : List String) (base ext : String) : Nat → Nat → String
  | 0, k => candT base ext k
  | fuel + 1, k =>
    if candT base ext k ∈ D then getUniqueFrom D base ext fuel (k + 1)
    else candT base ext k

/-- Model of `getUniqueFilename(dir, baseName, format)`: the directory
contents are the list `D` of names currently present. -/
def getUniqueFilename (D : List String) (base ext : String) : String :=
  getUniqueFrom D base ext (D.length + 1) 0

/-! ## Retryable Deleter: `safeUnlink` of backend/app/utils/fileCleanup.js.

Each unlink attempt is an oracle outcome indexed by the attempt number
(0-based). The model returns the JS return value together with the list
of sleep durations performed, or propagates the thrown error. -/

/-- Outcome of one `fs.unlink` attempt. -/
inductive UnlinkOutcome where
  | ok
  | busy
  | enoent
  | other (msg : String)
deriving DecidableEq, Repr

/-- The retry loop of `safeUnlink(filePath, retries, delay)` from
fileCleanup.js, starting at attempt `i` with sleeps `ds` so far.
`busy` stands for the EPERM/EBUSY class, `enoent` for ENOENT. -/
def safeUnlinkGo (out : Nat → UnlinkOutcome) (retries delay : Nat) (i : Nat) (ds : List Nat) :
    Except String (Bool × List Nat) :=
  if _h : i < retries then
    match out i with
    | .ok => .ok (true, ds)
    | .enoent => .ok (true, ds)
    | .other msg => .error msg
    | .busy =>
      if i < retries - 1 then safeUnlinkGo out retries delay (i + 1) (ds ++ [delay * (i + 1)])
      else .ok (false, ds)
  else .ok (false, ds)
termination_by retries - i
decreasing_by omega

/-- Model of fileCleanup.js `safeUnlink`: returns `(deleted?, sleeps)`
or the propagated error message. -/
def safeUnlink (out : Nat → UnlinkOutcome) (retries delay : Nat) : Except String (Bool × List Nat) :=
  safeUnlinkGo out retries delay 0 []

/-! ## Lifecycle Scheduler sweep: `cleanupExpiredFiles` of fileCleanup.js. -/

/-- What `fs.stat` reveals about a directory entry: a subdirectory, a
regular file with its mtime (ms), or a stat failure. -/
inductive EntryKind where
  | dirEntry
  | fileEntry (mtimeMs : Int)
  | statErr (msg : String)
deriving DecidableEq, Repr

/-- One entry of the uploads directory as seen by the sweep. -/
structure DirEntry where
  name : String
  kind : EntryKind
deriving DecidableEq, Repr

/-- Net effect of one `safeUnlink` call inside the sweep: the file was
deleted (returned true), the lock retries ran out (returned false), or
a non-transient error was thrown. -/
inductive DelOutcome where
  | deleted
  | lockedFail
  | threw (msg : String)
deriving DecidableEq, Repr

/-- File expiry threshold, ms (fileCleanup.js: `10 * 60 * 1000`). -/
def FILE_EXPIRY_MS : Int := 10 * 60 * 1000

/-- Result counters of one sweep, plus the names actually deleted
(observable effect on the directory). -/
structure CleanupResult where
  cleaned : Nat
  errors : Nat
  deletedNames : List String
deriving DecidableEq, Repr

/-- The per-entry loop of `cleanupExpiredFiles`: stat each entry, skip
directories, delete regular files strictly older than the threshold,
counting failures as errors. -/
def cleanupSweep (del : String → DelOutcome) (now : Int) : List DirEntry → CleanupResult
  | [] => ⟨0, 0, []⟩
  | e :: rest =>
    let r := cleanupSweep del now rest
    match e.kind with
    | .statErr _ => ⟨r.cleaned, r.errors + 1, r.deletedNames⟩
    | .dirEntry => r
    | .fileEntry mtime =>
      if now - mtime > FILE_EXPIRY_MS then
        match del e.name with
        | .deleted => ⟨r.cleaned + 1, r.errors, e.name :: r.deletedNames⟩
        | .lockedFail => ⟨r.cleaned, r.errors + 1, r.deletedNames⟩
        | .threw _ => ⟨r.cleaned, r.errors + 1, r.deletedNames⟩
      else r

/-- Model of `cleanupExpiredFiles`: when the uploads directory does not
exist the sweep reports zero work; otherwise it scans the entries. -/
def cleanupExpiredFiles (dirExists : Bool) (entries : List DirEntry)
    (del : String → DelOutcome) (now : Int) : CleanupResult :=
  if dirExists then cleanupSweep del now entries else ⟨0, 0, []⟩

/-! ## Archive Assembler: `createArchive` of archiveService.js.

The security predicates `isPathTraversalSafe` and `isWithinDirectory`
live in utils/security.js, which is not part of the provided sources;
they are taken as abstract boolean predicates (the spec describes them
as the path-traversal check and the containment check). Filesystem
existence is an abstract predicate as well. -/

/-- Path join as used by `path.join(UPLOAD_DIR, filename)`. -/
def joinPath (dir name : String) : String := dir ++ "/" ++ name

/-- The per-filename loop of `createArchive`: skip unsafe names, skip
names resolving outside the uploads directory, skip missing files, and
collect the names actually added to the archive, in request order. -/
def addArchiveFiles (safe : String → Bool) (within : String → String → Bool)
    (exfile : String → Bool) (updir : String) : List String → List String
  | [] => []
  | n :: rest =>
    if ¬ safe n then addArchiveFiles safe within exfile updir rest
    else if ¬ within (joinPath updir n) updir then addArchiveFiles safe within exfile updir rest
    else if exfile (joinPath updir n) then n :: addArchiveFiles safe within exfile updir rest
    else addArchiveFiles safe within exfile updir rest

/-- Model of `createArchive(files)`: the archive contents (list of
member names) on success, or the rejection message when no file
survived validation. -/
def createArchive (safe : String → Bool) (within : String → String → Bool)
    (exfile : String → Bool) (updir : String) (files : List String) :
    Except String (List String) :=
  let added := addArchiveFiles safe within exfile updir files
  if added.length = 0 then .error "No valid files to archive" else .ok added

/-! ## Video processing: the ffmpeg command built by `processVideo`
(backend/app/services/videoProcessor.js). The command is modelled as
the structured list of output-option groups appended by the source. -/

/-- JS truthiness of an optional number (`null` and `0` are falsy). -/
def truthyN (x : Option Nat) : Bool :=
  match x with
  | none => false
  | some w => w ≠ 0

/-- Scale used inside the GIF filter chain. -/
inductive GifScale where
  | default480
  | absWidth (w : Nat)
  | percent (resize : Nat)
deriving DecidableEq, Repr

/-- Scale filter for non-GIF formats. -/
inductive ScaleFilter where
  | coverWH (w h : Nat)
  | fitWH (w h : Nat)
  | widthOnly (w : Nat)
  | heightOnly (h : Nat)
  | percent (resize : Nat)
deriving DecidableEq, Repr

/-- One output-option group appended to the ffmpeg command. -/
inductive FFmpegOpt where
  | gifFilter (s : GifScale)
  | videoCodec (c : String)
  | presetOpt (p : String)
  | crf (n : Nat)
  | movflagsFastStart
  | scale (s : ScaleFilter)
  | audioCodecAAC
  | noAudio
  | overwrite
deriving DecidableEq, Repr

/-- Options of `processVideo` after destructuring defaults. -/
structure VideoOptions where
  format : String
  resize : Nat
  bitrate : String
  preset : String
  audio : Bool
  resizeMode : String
  width : Option Nat
  height : Option Nat
  crop : String
deriving Repr

/-- Leading-digits accumulator for `parseInt`. -/
def takeDigitsAcc : List Char → Nat → Bool → Option Nat
  | [], acc, seen => if seen then some acc else none
  | c :: rest, acc, seen =>
    if c.isDigit then takeDigitsAcc rest (acc * 10 + (c.toNat - 48)) true
    else if seen then some acc else none

/-- Model of JS `parseInt` on bitrate hints such as `'2M'`: optional
sign followed by the maximal digit prefix; `none` models NaN. -/
def parseIntJS (s : String) : Option Int :=
  match s.data with
  | '-' :: rest => (takeDigitsAcc rest 0 false).map (fun n => -(n : Int))
  | '+' :: rest => (takeDigitsAcc rest 0 false).map (fun n => (n : Int))
  | l => (takeDigitsAcc l 0 false).map (fun n => (n : Int))

/-- The bitrate→CRF threshold ladder of `processVideo` (lines 173-181). -/
def crfOfBitrate (n : Int) : Nat :=
  if n ≥ 5 then 18
  else if n ≥ 3 then 20
  else if n ≥ 2 then 23
  else if n ≥ 1 then 28
  else 32

/-- CRF from the raw bitrate string. In JS a NaN `parseInt` result fails
every `>=` comparison and falls through to the final `else`, giving 32. -/
def crfOfBitrateStr (s : String) : Nat :=
  match parseIntJS s with
  | some n => crfOfBitrate n
  | none => 32

/-- The x264 preset map with its `|| 'medium'` fallback. -/
def presetMap (p : String) : String :=
  if p = "web" then "medium"
  else if p = "quality" then "slow"
  else if p = "fast" then "veryfast"
  else "medium"

/-- The sequence of output-option groups `processVideo` adds to the
ffmpeg command for the given options (videoProcessor.js lines 135-218). -/
def buildVideoCommand (o : VideoOptions) : List FFmpegOpt :=
  if o.format = "gif" then
    let gs : GifScale :=
      if o.resizeMode = "absolute" ∧ truthyN o.width then .absWidth (o.width.getD 0)
      else if o.resize ≠ 100 then .percent o.resize
      else .default480
    [.gifFilter gs, .noAudio, .overwrite]
  else
    let c1 : List FFmpegOpt :=
      if o.format = "mp4" ∨ o.format = "mov" ∨ o.format = "mkv" then [.videoCodec "libx264"]
      else if o.format = "webm" then [.videoCodec "libvpx-vp9"]
      else []
    let c2 : List FFmpegOpt :=
      if o.format = "mp4" ∨ o.format = "mov" ∨ o.format = "mkv" then
        [.presetOpt (presetMap o.preset), .crf (crfOfBitrateStr o.bitrate)]
      else []
    let c3 : List FFmpegOpt :=
      if o.format = "mp4" ∨ o.format = "mov" then [.movflagsFastStart] else []
    let c4 : List FFmpegOpt :=
      if o.resizeMode = "absolute" ∧ (truthyN o.width ∨ truthyN o.height) then
        if truthyN o.width ∧ truthyN o.height then
          if o.crop = "cover" then [.scale (.coverWH (o.width.getD 0) (o.height.getD 0))]
          else [.scale (.fitWH (o.width.getD 0) (o.height.getD 0))]
        else if truthyN o.width then [.scale (.widthOnly (o.width.getD 0))]
        else [.scale (.heightOnly (o.height.getD 0))]
      else if o.resize ≠ 100 then [.scale (.percent o.resize)]
      else []
    let c5 : List FFmpegOpt := if o.audio then [.audioCodecAAC] else [.noAudio]
    c1 ++ c2 ++ c3 ++ c4 ++ c5 ++ [.overwrite]

/-! ## Image batch orchestrator: `processImages` (imageProcessor.js),
`optimizeSVGs` (svgProcessor.js) and `processWithImageMagick`
(imageMagickProcessor.js).

The uploads directory is modelled as the list of filenames it holds
(the repository stores originals and artifacts flat in one shared
directory). Each sharp / ImageMagick / svgo invocation is an oracle
from (source name, target format) to an `Except String Nat` outcome
giving the produced file size or the thrown error message. The two
runtime availability probes of ImageMagick (`isImageMagickAvailable`
is called once in `processImages` and once again inside
`processWithImageMagick`) are the booleans `avail1` and `avail2`.
An event trace records artifact production and source deletion so
ordering properties are observable. -/

/-- One uploaded file as multer hands it over. -/
structure UploadedFile where
  originalname : String
  path : String
deriving DecidableEq, Repr

/-- Options of `processImages` after destructuring defaults. -/
structure ImgOptions where
  quality : Nat
  resize : Nat
  formats : List String
  useImageMagick : Bool
  resizeMode : String
  width : Option Nat
  height : Option Nat
  crop : String
deriving Repr

/-- One produced output record (`processedFiles` element). -/
structure Artifact where
  format : String
  filename : String
  size : Nat
  savings : String
deriving DecidableEq, Repr

/-- One per-file result record pushed into the batch result list.
Absent JS object fields are `none`. -/
structure FileResult where
  name : String
  status : String
  originalSize : Option Nat
  processedFiles : Option (List Artifact)
  error : Option String
  processor : Option String
deriving DecidableEq, Repr

/-- The success record shape `(name, originalSize, processedFiles,
status, processor?)`. -/
def successResult (name : String) (o : Nat) (arts : List Artifact)
    (pl : Option String) : FileResult :=
  ⟨name, "success", some o, some arts, none, pl⟩

/-- The error record shape `(name, status, error)`. -/
def errorResult (name msg : String) : FileResult :=
  ⟨name, "error", none, none, some msg, none⟩

/-- Observable filesystem events of one batch run. -/
inductive Ev where
  | produced (orig : String) (format : String) (outName : String)
  | deleted (path : String)
deriving DecidableEq, Repr

/-- Oracles for one `processImages` run: sizes of present files, the
sharp encoder, the ImageMagick encoder, the svgo optimizer (composite
of readFile + optimize + write, yielding the optimized size), unlink
contention, and the two ImageMagick availability probes. -/
structure Env where
  sizeOf : String → Nat
  encode : String → String → Except String Nat
  magickEncode : String → String → Except String Nat
  svgo : String → Except String Nat
  busy : String → Bool
  avail1 : Bool
  avail2 : Bool

/-- Suffix of a character list starting at its last dot. -/
def extSuffix : List Char → Option (List Char)
  | [] => none
  | c :: cs =>
    match extSuffix cs with
    | some r => some r
    | none => if c = '.' then some (c :: cs) else none

/-- Model of `path.extname` on a bare filename: the suffix from the
last dot, where a dot in leading position does not start an extension. -/
def extname (s : String) : String :=
  match s.data with
  | [] => ""
  | _ :: cs =>
    match extSuffix cs with
    | some r => ⟨r⟩
    | none => ""

/-- ASCII lower-casing of one character (extensions compared by the
source are ASCII; `toLowerCase()` is modelled on ASCII letters). -/
def charLower (c : Char) : Char :=
  if c = 'A' then 'a' else if c = 'B' then 'b' else if c = 'C' then 'c'
  else if c = 'D' then 'd' else if c = 'E' then 'e' else if c = 'F' then 'f'
  else if c = 'G' then 'g' else if c = 'H' then 'h' else if c = 'I' then 'i'
  else if c = 'J' then 'j' else if c = 'K' then 'k' else if c = 'L' then 'l'
  else if c = 'M' then 'm' else if c = 'N' then 'n' else if c = 'O' then 'o'
  else if c = 'P' then 'p' else if c = 'Q' then 'q' else if c = 'R' then 'r'
  else if c = 'S' then 's' else if c = 'T' then 't' else if c = 'U' then 'u'
  else if c = 'V' then 'v' else if c = 'W' then 'w' else if c = 'X' then 'x'
  else if c = 'Y' then 'y' else if c = 'Z' then 'z' else c

/-- ASCII `toLowerCase()`. -/
def strLower (s : String) : String := ⟨s.data.map charLower⟩

/-- Lower-cased extension, as in `path.extname(name).toLowerCase()`. -/
def extLower (s : String) : String := strLower (extname s)

/-- Model of `path.basename(name, path.extname(name))`: the filename
with its extension removed. -/
def baseNameNoExt (s : String) : String :=
  ⟨s.data.take (s.data.length - (extname s).data.length)⟩

/-- The fixed specialty-raster allowlist of imageMagickProcessor.js. -/
def IMAGEMAGICK_PREFERRED_FORMATS : List String :=
  [".tiff", ".tif", ".psd", ".eps", ".ai", ".pdf", ".heic", ".heif"]

/-- Model of `shouldUseImageMagick(filename)`: extension membership in
the allowlist, case-insensitive. -/
def shouldUseImageMagick (filename : String) : Bool :=
  IMAGEMAGICK_PREFERRED_FORMATS.contains (extLower filename)

/-- Vector-graphics classification used by `processImages`. -/
def isSvgFile (f : UploadedFile) : Bool := extLower f.originalname == ".svg"

/-- The raster target formats recognised for SVG conversion
(`['webp', 'avif', 'jpg', 'jpeg', 'png']`). -/
def RASTER_FORMATS : List String := ["webp", "avif", "jpg", "jpeg", "png"]

/-- JS `x.toFixed(2)` on an exact rational: round to the nearest
hundredth picking the larger value on ties, then render with two
decimals. -/
def toFixed2 (q : ℚ) : String :=
  (if ⌊q * 100 + 1 / 2⌋ < 0 then "-" else "")
    ++ Nat.repr ((⌊q * 100 + 1 / 2⌋).natAbs / 100) ++ "."
    ++ (if (⌊q * 100 + 1 / 2⌋).natAbs % 100 < 10
        then "0" ++ Nat.repr ((⌊q * 100 + 1 / 2⌋).natAbs % 100)
        else Nat.repr ((⌊q * 100 + 1 / 2⌋).natAbs % 100))

/-- The unclamped savings display
`((originalSize - processedSize) / originalSize * 100).toFixed(2)`. -/
def savingsRaw (orig proc : Nat) : String :=
  toFixed2 (((orig : ℚ) - (proc : ℚ)) / (orig : ℚ) * 100)

/-- The clamped savings display of the SVG→raster pass:
`originalSize > processedSize ? computed : '0.00'`. -/
def savingsClamped (orig proc : Nat) : String :=
  if proc < orig then savingsRaw orig proc else "0.00"

/-- The processor-side `safeUnlink` (imageProcessor.js /
svgProcessor.js / imageMagickProcessor.js variant): swallows the
EPERM/EBUSY class after its retries (leaving the file in place),
rethrows every other error — in particular ENOENT when the path is
gone. Returns the directory after the call and whether the file was
actually removed. -/
def safeUnlinkProc (busy : String → Bool) (p : String) (dir : List String) :
    Except String (List String × Bool) :=
  if p ∈ dir then
    if busy p then .ok (dir, false)
    else .ok (dir.erase p, true)
  else .error ("ENOENT: " ++ p)

/-- Static per-pass configuration: the formats iterated, whether the
savings display is clamped, whether the original is deleted after a
full success, whether a success with an empty artifact list is still
pushed, and the optional `processor` label. -/
structure PassCfg where
  fmts : List String
  clamp : Bool
  delOrig : Bool
  pushAlways : Bool
  procLabel : Option String

/-- The per-format encoding loop shared by the three raster-style
passes: allocate a unique output name, invoke the encoder, record the
artifact, and stop at the first thrown error. -/
def encodeFormats (enc : String → String → Except String Nat) (src orig base : String)
    (o : Nat) (clamp : Bool) :
    List String → List String → List Ev → List Artifact →
    Except String (List Artifact) × List String × List Ev
  | [], dir, evs, acc => (.ok acc, dir, evs)
  | f :: rest, dir, evs, acc =>
    let outName := getUniqueFilename dir base f
    match enc src f with
    | .error m => (.error m, dir, evs)
    | .ok s =>
      encodeFormats enc src orig base o clamp rest (dir ++ [outName])
        (evs ++ [.produced orig f outName])
        (acc ++ [⟨f, outName, s, if clamp then savingsClamped o s else savingsRaw o s⟩])

/-- Result pushed by a raster-style pass after a fully successful
per-file loop: always pushed for the ordinary and ImageMagick passes,
only pushed when non-empty for the SVG→raster pass. -/
def pushResult (cfg : PassCfg) (name : String) (o : Nat) (arts : List Artifact) :
    Option FileResult :=
  if cfg.pushAlways then some (successResult name o arts cfg.procLabel)
  else if arts.length ≠ 0 then some (successResult name o arts cfg.procLabel)
  else none

/-- One iteration of a per-file try/catch block: stat the original,
encode every configured format, optionally delete the original, and
convert any thrown error into an error record. A success is pushed
unless the pass only pushes non-empty artifact lists. -/
def processOneFile (sizeOf : String → Nat) (enc : String → String → Except String Nat)
    (busy : String → Bool) (cfg : PassCfg) (file : UploadedFile)
    (dir : List String) (evs : List Ev) :
    Option FileResult × List String × List Ev :=
  if file.path ∈ dir then
    let o := sizeOf file.path
    let base := baseNameNoExt file.originalname
    let E := encodeFormats enc file.path file.originalname base o cfg.clamp cfg.fmts dir evs []
    let dir2 := E.2.1
    let evs2 := E.2.2
    match E.1 with
    | .error m => (some (errorResult file.originalname m), dir2, evs2)
    | .ok arts =>
      if cfg.delOrig then
        match safeUnlinkProc busy file.path dir2 with
        | .error m => (some (errorResult file.originalname m), dir2, evs2)
        | .ok (dir3, removed) =>
          (pushResult cfg file.originalname o arts, dir3,
            if removed then evs2 ++ [.deleted file.path] else evs2)
      else (pushResult cfg file.originalname o arts, dir2, evs2)
  else (some (errorResult file.originalname ("ENOENT: " ++ file.path)), dir, evs)

/-- Sequential per-file loop of one pass. -/
def runPass (sizeOf : String → Nat) (enc : String → String → Except String Nat)
    (busy : String → Bool) (cfg : PassCfg) :
    List UploadedFile → List String → List Ev →
    List FileResult × List String × List Ev
  | [], dir, evs => ([], dir, evs)
  | f :: rest, dir, evs =>
    let step := processOneFile sizeOf enc busy cfg f dir evs
    let next := runPass sizeOf enc busy cfg rest step.2.1 step.2.2
    (step.1.toList ++ next.1, next.2.1, next.2.2)

/-- One file of `optimizeSVGs`: stat and read the original, run svgo,
write the optimized copy under a fresh name, delete the original when
it differs from the output, and push exactly one `svg` artifact. -/
def optimizeSVGFile (sizeOf : String → Nat) (svgo : String → Except String Nat)
    (busy : String → Bool) (file : UploadedFile) (dir : List String) (evs : List Ev) :
    FileResult × List String × List Ev :=
  if file.path ∈ dir then
    let o := sizeOf file.path
    match svgo file.path with
    | .error m => (errorResult file.originalname m, dir, evs)
    | .ok s =>
      let base := baseNameNoExt file.originalname
      let outName := getUniqueFilename dir base "svg"
      let dir2 := dir ++ [outName]
      let evs2 := evs ++ [.produced file.originalname "svg" outName]
      let art : Artifact := ⟨"svg", outName, s, savingsRaw o s⟩
      if file.path ≠ outName then
        match safeUnlinkProc busy file.path dir2 with
        | .error m => (errorResult file.originalname m, dir2, evs2)
        | .ok (dir3, removed) =>
          (successResult file.originalname o [art] none, dir3,
            if removed then evs2 ++ [.deleted file.path] else evs2)
      else (successResult file.originalname o [art] none, dir2, evs2)
  else (errorResult file.originalname ("ENOENT: " ++ file.path), dir, evs)

/-- Model of `optimizeSVGs(files, options)`. -/
def optimizeSVGs (sizeOf : String → Nat) (svgo : String → Except String Nat)
    (busy : String → Bool) :
    List UploadedFile → List String → List Ev →
    List FileResult × List String × List Ev
  | [], dir, evs => ([], dir, evs)
  | f :: rest, dir, evs =>
    let step := optimizeSVGFile sizeOf svgo busy f dir evs
    let next := optimizeSVGs sizeOf svgo busy rest step.2.1 step.2.2
    (step.1 :: next.1, next.2.1, next.2.2)

/-- Pass configuration of the ImageMagick loop: every requested format,
unclamped savings, original deleted, result always pushed, labelled. -/
def magickCfg (opts : ImgOptions) : PassCfg :=
  ⟨opts.formats, false, true, true, some "ImageMagick"⟩

/-- Model of `processWithImageMagick(files, options)`: rechecks
availability (probe 2) and throws when absent, otherwise runs the
per-file loop. -/
def processWithImageMagick (env : Env) (files : List UploadedFile) (opts : ImgOptions)
    (dir : List String) (evs : List Ev) :
    Except String (List FileResult × List String × List Ev) :=
  if env.avail2 then
    .ok (runPass env.sizeOf env.magickEncode env.busy (magickCfg opts) files dir evs)
  else .error "ImageMagick is not installed on this system"

/-- Pass configuration of the SVG→raster conversion loop: only raster
formats, clamped savings, original kept when `svg` output is also
requested, empty successes not pushed. -/
def svgRasterCfg (opts : ImgOptions) (hasSvg : Bool) : PassCfg :=
  ⟨opts.formats.filter (fun f => RASTER_FORMATS.contains f), true, !hasSvg, false, none⟩

/-- Pass configuration of the ordinary sharp loop: every non-`svg`
format, unclamped savings, original deleted, result always pushed. -/
def sharpCfg (opts : ImgOptions) : PassCfg :=
  ⟨opts.formats.filter (fun f => !(f == "svg")), false, true, true, none⟩

/-- The vector-graphics sub-batch: files whose lower-cased extension is
`.svg`. -/
def svgFilesOf (files : List UploadedFile) : List UploadedFile := files.filter isSvgFile

/-- The specialty-raster sub-batch, empty when ImageMagick use is
disabled. -/
def imFilesOf (files : List UploadedFile) (opts : ImgOptions) : List UploadedFile :=
  if opts.useImageMagick then files.filter (fun f => shouldUseImageMagick f.originalname)
  else []

/-- The ordinary raster sub-batch. -/
def rasterFilesOf (files : List UploadedFile) (opts : ImgOptions) : List UploadedFile :=
  files.filter (fun f =>
    !(isSvgFile f) && (if opts.useImageMagick then !(shouldUseImageMagick f.originalname) else true))

/-- The SVG block of `processImages`: the raster-conversion pass first
(when a raster format is requested), then the svgo optimization pass
(when `svg` is requested). -/
def svgSection (env : Env) (opts : ImgOptions) (svgFiles : List UploadedFile)
    (dir : List String) : List FileResult × List String × List Ev :=
  if 0 < svgFiles.length then
    let a :=
      if opts.formats.any (fun f => RASTER_FORMATS.contains f) then
        runPass env.sizeOf env.encode env.busy
          (svgRasterCfg opts (opts.formats.contains "svg")) svgFiles dir []
      else ([], dir, [])
    let b :=
      if opts.formats.contains "svg" then
        optimizeSVGs env.sizeOf env.svgo env.busy svgFiles a.2.1 a.2.2
      else ([], a.2.1, a.2.2)
    (a.1 ++ b.1, b.2.1, b.2.2)
  else ([], dir, ([] : List Ev))

/-- The ImageMagick block of `processImages`: probe availability, run
the sub-batch, and on a thrown sub-batch (or unavailability) reroute
the specialty files into the sharp file set. Returns the results, the
file set left for the sharp pass, the directory and the trace. -/
def magickSection (env : Env) (opts : ImgOptions) (imFiles rasterFiles : List UploadedFile)
    (dir : List String) (evs : List Ev) :
    List FileResult × List UploadedFile × List String × List Ev :=
  if 0 < imFiles.length then
    if env.avail1 then
      match processWithImageMagick env imFiles opts dir evs with
      | .ok r => (r.1, rasterFiles, r.2.1, r.2.2)
      | .error _ => (([] : List FileResult), rasterFiles ++ imFiles, dir, evs)
    else (([] : List FileResult), rasterFiles ++ imFiles, dir, evs)
  else (([] : List FileResult), rasterFiles, dir, evs)

/-- Model of `processImages(files, options)` over an initial uploads
directory `dir`: classification, the two SVG passes, the ImageMagick
pass with its fallback rerouting, and the sharp pass. Returns the
batch result list, the final directory and the event trace. -/
def processImages (env : Env) (files : List UploadedFile) (opts : ImgOptions)
    (dir : List String) : List FileResult × List String × List Ev :=
  let s12 := svgSection env opts (svgFilesOf files) dir
  let s3 := magickSection env opts (imFilesOf files opts) (rasterFilesOf files opts)
    s12.2.1 s12.2.2
  let s4 := runPass env.sizeOf env.encode env.busy (sharpCfg opts) s3.2.1 s3.2.2.1 s3.2.2.2
  (s12.1 ++ s3.1 ++ s4.1, s4.2.1, s4.2.2)

/-! ## Per-file summary views used to state failure isolation.

The status of one file depends only on its own oracles: these derived
views give the closed per-file form that the passes are proved to
realise. -/

/-- Projection of a FileResult to its externally meaningful outcome
`(name, status, error)`. -/
def view (r : FileResult) : String × String × Option String := (r.name, r.status, r.error)

/-- The first error thrown by the per-format encoder loop on `src`
over the format list, if any. -/
def pipeErr (enc : String → String → Except String Nat) (src : String) :
    List String → Option String
  | [] => none
  | f :: rest =>
    match enc src f with
    | .error m => some m
    | .ok _ => pipeErr enc src rest

/-- Closed per-file outcome of a raster-style pass: the first encoder
error if one occurs, success otherwise. -/
def passView (enc : String → String → Except String Nat) (fmts : List String)
    (f : UploadedFile) : String × String × Option String :=
  match pipeErr enc f.path fmts with
  | some m => (f.originalname, "error", some m)
  | none => (f.originalname, "success", none)

/-- Closed per-file outcome of the SVG-optimization pass. -/
def svgOptView (svgo : String → Except String Nat) (f : UploadedFile) :
    String × String × Option String :=
  match svgo f.path with
  | .error m => (f.originalname, "error", some m)
  | .ok _ => (f.originalname, "success", none)

/-! ## Concrete batch scenarios used in end-to-end theorems -/

/-- Oracles for a single-SVG batch: every file stats to `o` bytes, the
sharp encoder always succeeds with size `s1`, svgo succeeds with size
`s2`, no unlink contention, ImageMagick absent. -/
def svgEnv (o s1 s2 : Nat) : Env :=
  ⟨fun _ => o, fun _ _ => .ok s1, fun _ _ => .ok 0, fun _ => .ok s2, fun _ => false,
    false, false⟩

/-- One uploaded vector-graphics file stored under its own name. -/
def svgFileA : UploadedFile := ⟨"a.svg", "a.svg"⟩

/-- Batch options requesting both `webp` and `svg` outputs. -/
def webpSvgOpts : ImgOptions := ⟨80, 100, ["webp", "svg"], true, "percent", none, none, "none"⟩

/-- Batch options requesting only `webp` output. -/
def webpOpts : ImgOptions := ⟨80, 100, ["webp"], true, "percent", none, none, "none"⟩

/-- Oracles for a single ordinary raster batch: stat `o`, sharp
succeeds producing `s` bytes. -/
def rasterEnv (o s : Nat) : Env :=
  ⟨fun _ => o, fun _ _ => .ok s, fun _ _ => .ok 0, fun _ => .ok 0, fun _ => false,
    false, false⟩

/-- One uploaded raster file stored under its own name. -/
def rasterFileB : UploadedFile := ⟨"b.png", "b.png"⟩

/-- Oracles for a two-raster-file batch where encoding `x.png` throws
and everything else succeeds. -/
def envW : Env :=
  ⟨fun _ => 100,
   fun src _ => if src == "x.png" then .error "boom" else .ok 10,
   fun _ _ => .ok 0, fun _ => .ok 0, fun _ => false, false, false⟩

/-- A raster upload whose encoding will fail. -/
def fileX : UploadedFile := ⟨"x.png", "x.png"⟩

/-- A raster upload whose encoding will succeed. -/
def fileY : UploadedFile := ⟨"y.png", "y.png"⟩

/-- Oracles for a specialty-raster batch with ImageMagick unavailable
(first availability probe fails) while sharp succeeds. -/
def envM : Env :=
  ⟨fun _ => 100, fun _ _ => .ok 10, fun _ _ => .error "magick gone", fun _ => .ok 0,
   fun _ => false, false, false⟩

/-- A specialty-raster upload (TIFF). -/
def fileT : UploadedFile := ⟨"t.tiff", "t.tiff"⟩

/-! # Theorems -/

/-! ## `Nat.repr` facts -/

theorem foldl_decode_linear (l : List Char) :
    ∀ a : Nat, l.foldl (fun a c => 10 * a + decodeDigit c) a
      = a * 10 ^ l.length + l.foldl (fun a c => 10 * a + decodeDigit c) 0 := by
  induction l with
  | nil => intro a; simp
  | cons c t ih =>
    intro a
    simp only [List.foldl_cons, List.length_cons]
    rw [ih (10 * a + decodeDigit c), ih (10 * 0 + decodeDigit c)]
    ring

theorem decodeDigit_digitChar (m : Nat) (h : m < 10) :
    decodeDigit (Nat.digitChar m) = m := by
  interval_cases m <;> rfl

theorem decodeNum_toDigitsCore :
    ∀ (fuel n : Nat) (acc : List Char), n < fuel →
      decodeNum (Nat.toDigitsCore 10 fuel n acc) = n * 10 ^ acc.length + decodeNum acc := by
  intro fuel
  induction fuel with
  | zero => intro n acc h; omega
  | succ f ih =>
    intro n acc h
    simp only [Nat.toDigitsCore]
    by_cases h0 : n / 10 = 0
    · rw [if_pos h0]
      have hn10 : n < 10 := by
        by_contra hc
        push_neg at hc
        have := (Nat.one_le_div_iff (b := 10) (by norm_num)).mpr hc
        omega
      have hthis : decodeNum (Nat.digitChar (n % 10) :: acc)
          = (n % 10) * 10 ^ acc.length + decodeNum acc := by
        simp only [decodeNum, List.foldl_cons]
        rw [foldl_decode_linear]
        rw [decodeDigit_digitChar _ (Nat.mod_lt _ (by norm_num))]
        ring
      rw [hthis, Nat.mod_eq_of_lt hn10]
    · rw [if_neg h0]
      have hge : 10 ≤ n := by
        by_contra hlt
        exact h0 (Nat.div_eq_of_lt (by omega))
      have hdivlt : n / 10 < f := by
        have h1 : n / 10 < n := Nat.div_lt_self (by omega) (by norm_num)
        omega
      rw [ih (n / 10) (Nat.digitChar (n % 10) :: acc) hdivlt]
      have hc : decodeNum (Nat.digitChar (n % 10) :: acc)
          = (n % 10) * 10 ^ acc.length + decodeNum acc := by
        simp only [decodeNum, List.foldl_cons]
        rw [foldl_decode_linear]
        rw [decodeDigit_digitChar _ (Nat.mod_lt _ (by norm_num))]
        ring
      rw [hc]
      simp only [List.length_cons]
      have hsplit : n = 10 * (n / 10) + n % 10 := (Nat.div_add_mod n 10).symm
      calc n / 10 * 10 ^ (acc.length + 1) + ((n % 10) * 10 ^ acc.length + decodeNum acc)
          = (10 * (n / 10) + n % 10) * 10 ^ acc.length + decodeNum acc := by ring
        _ = n * 10 ^ acc.length + decodeNum acc := by rw [← hsplit]

theorem decodeNum_toDigits (n : Nat) : decodeNum (Nat.toDigits 10 n) = n := by
  have := decodeNum_toDigitsCore (n + 1) n [] (Nat.lt_succ_self n)
  simpa [Nat.toDigits, decodeNum] using this

theorem repr_data_eq (n : Nat) : (Nat.repr n).data = Nat.toDigits 10 n := rfl

theorem nat_repr_injective : Function.Injective Nat.repr := by
  intro m n h
  have hd : Nat.toDigits 10 m = Nat.toDigits 10 n := by
    rw [← repr_data_eq, ← repr_data_eq, h]
  have := decodeNum_toDigits m
  rw [hd, decodeNum_toDigits n] at this
  omega

theorem toDigitsCore_length_ge :
    ∀ (fuel n : Nat) (acc : List Char),
      acc.length ≤ (Nat.toDigitsCore 10 fuel n acc).length := by
  intro fuel
  induction fuel with
  | zero => intro n acc; simp [Nat.toDigitsCore]
  | succ f ih =>
    intro n acc
    simp only [Nat.toDigitsCore]
    by_cases h0 : n / 10 = 0
    · simp [h0]
    · rw [if_neg h0]
      have := ih (n / 10) (Nat.digitChar (n % 10) :: acc)
      simp only [List.length_cons] at this
      omega

theorem repr_length_pos (n : Nat) : 1 ≤ (Nat.repr n).length := by
  show 1 ≤ (Nat.repr n).data.length
  rw [repr_data_eq]
  simp only [Nat.toDigits, Nat.toDigitsCore]
  by_cases h0 : n / 10 = 0
  · simp [h0]
  · rw [if_neg h0]
    have := toDigitsCore_length_ge n (n / 10) [Nat.digitChar (n % 10)]
    simp only [List.length_cons, List.length_nil] at this
    omega

/-! ## Filename allocator theorems -/

theorem candT_injective (base ext : String) : Function.Injective (candT base ext) := by
  have hu : ("_" : String).length = 1 := by decide
  have hd : ("." : String).length = 1 := by decide
  intro i j h
  unfold candT at h
  by_cases hi : i = 0 <;> by_cases hj : j = 0
  · exact hi.trans hj.symm
  · exfalso
    rw [if_pos hi, if_neg hj] at h
    have hlen := congrArg String.length h
    simp only [String.length_append] at hlen
    have h1 := repr_length_pos j
    omega
  · exfalso
    rw [if_neg hi, if_pos hj] at h
    have hlen := congrArg String.length h
    simp only [String.length_append] at hlen
    have h1 := repr_length_pos i
    omega
  · rw [if_neg hi, if_neg hj] at h
    have hlen := congrArg String.length h
    simp only [String.length_append] at hlen
    have hrl : (Nat.repr i).length = (Nat.repr j).length := by omega
    have hdata := congrArg String.data h
    simp only [String.data_append, List.append_assoc] at hdata
    have h2 := List.append_cancel_left hdata
    have h3 := List.append_cancel_left h2
    have h4 : (Nat.repr i).data = (Nat.repr j).data :=
      (List.append_inj h3 hrl).left
    exact nat_repr_injective (String.ext h4)

theorem getUniqueFrom_spec (D : List String) (base ext : String) :
    ∀ (fuel k : Nat), (∃ j, k ≤ j ∧ j ≤ k + fuel ∧ candT base ext j ∉ D) →
      ∃ m, getUniqueFrom D base ext fuel k = candT base ext m ∧ k ≤ m ∧
        candT base ext m ∉ D ∧ ∀ i, k ≤ i → i < m → candT base ext i ∈ D := by
  intro fuel
  induction fuel with
  | zero =>
    rintro k ⟨j, hkj, hjk, hfree⟩
    have hjeq : j = k := by omega
    subst hjeq
    exact ⟨j, rfl, le_refl j, hfree, fun i h1 h2 => absurd h1 (by omega)⟩
  | succ f ih =>
    rintro k ⟨j, hkj, hjk, hfree⟩
    simp only [getUniqueFrom]
    by_cases hmem : candT base ext k ∈ D
    · rw [if_pos hmem]
      have hjne : j ≠ k := fun h => hfree (h ▸ hmem)
      obtain ⟨m, hm, hkm, hmfree, hfirst⟩ :=
        ih (k + 1) ⟨j, by omega, by omega, hfree⟩
      refine ⟨m, hm, by omega, hmfree, fun i h1 h2 => ?_⟩
      rcases Nat.eq_or_lt_of_le h1 with h | h
      · exact h ▸ hmem
      · exact hfirst i (by omega) h2
    · rw [if_neg hmem]
      exact ⟨k, rfl, le_refl k, hmem, fun i h1 h2 => absurd h1 (by omega)⟩

theorem exists_free_candidate (D : List String) (base ext : String) :
    ∃ j, j ≤ D.length ∧ candT base ext j ∉ D := by
  by_contra hall
  push_neg at hall
  have hsub : (Finset.range (D.length + 1)).image (candT base ext) ⊆ D.toFinset := by
    intro x hx
    obtain ⟨j, hj, rfl⟩ := Finset.mem_image.mp hx
    exact List.mem_toFinset.mpr (hall j (by simpa using Nat.lt_succ_iff.mp (Finset.mem_range.mp hj)))
  have hcard := Finset.card_le_card hsub
  rw [Finset.card_image_of_injective _ (candT_injective base ext)] at hcard
  have h1 : D.toFinset.card ≤ D.length := List.toFinset_card_le D
  simp only [Finset.card_range] at hcard
  omega

/-- Full characterisation of the allocator: it returns the first probed
candidate that is absent from the directory. -/
theorem getUniqueFilename_spec (D : List String) (base ext : String) :
    ∃ m, getUniqueFilename D base ext = candT base ext m ∧
      candT base ext m ∉ D ∧ ∀ i, i < m → candT base ext i ∈ D := by
  obtain ⟨j, hj, hfree⟩ := exists_free_candidate D base ext
  obtain ⟨m, hm, _, hmfree, hfirst⟩ :=
    getUniqueFrom_spec D base ext (D.length + 1) 0 ⟨j, Nat.zero_le j, by omega, hfree⟩
  exact ⟨m, hm, hmfree, fun i h => hfirst i (Nat.zero_le i) h⟩

theorem getUniqueFilename_not_mem (D : List String) (base ext : String) :
    getUniqueFilename D base ext ∉ D := by
  obtain ⟨m, hm, hfree, _⟩ := getUniqueFilename_spec D base ext
  rw [hm]; exact hfree

/-- C3: the filename allocator probes `B.E`, then `B_1.E`, `B_2.E`, ...
and returns the first candidate not present in the directory `D`, so
the returned name never already exists in `D` at call time; and if the
first returned name is created before a second call, the second call
returns a distinct name. -/
theorem allocator_collision_free (D : List String) (base ext : String) :
    (∃ m, getUniqueFilename D base ext = candT base ext m ∧
        candT base ext m ∉ D ∧ ∀ i, i < m → candT base ext i ∈ D) ∧
    getUniqueFilename D base ext ∉ D ∧
    getUniqueFilename (D ++ [getUniqueFilename D base ext]) base ext ≠
      getUniqueFilename D base ext := by
  refine ⟨getUniqueFilename_spec D base ext, getUniqueFilename_not_mem D base ext, ?_⟩
  intro h
  have hnm := getUniqueFilename_not_mem (D ++ [getUniqueFilename D base ext]) base ext
  rw [h] at hnm
  exact hnm (List.mem_append_right _ (List.mem_singleton.mpr rfl))

/-! ## Retryable deleter theorems -/

theorem delay_schedule_succ (delay i n : Nat) :
    (List.range (n + 1)).map (fun j => delay * (i + j + 1)) =
      delay * (i + 1) :: (List.range n).map (fun j => delay * (i + 1 + j + 1)) := by
  rw [List.range_succ_eq_map, List.map_cons, List.map_map]
  have hf : ((fun j => delay * (i + j + 1)) ∘ Nat.succ) =
      (fun j => delay * (i + 1 + j + 1)) := by
    funext j
    simp only [Function.comp_apply, Nat.succ_eq_add_one]
    ring
  rw [hf]

theorem safeUnlinkGo_all_busy (out : Nat → UnlinkOutcome) (retries delay : Nat)
    (hbusy : ∀ i, i < retries → out i = .busy) :
    ∀ (n i : Nat) (ds : List Nat), i < retries → retries - 1 - i = n →
      safeUnlinkGo out retries delay i ds =
        .ok (false, ds ++ (List.range n).map (fun j => delay * (i + j + 1))) := by
  intro n
  induction n with
  | zero =>
    intro i ds hi hn
    rw [safeUnlinkGo, dif_pos hi, hbusy i hi]
    rw [if_neg (by omega)]
    simp
  | succ m ih =>
    intro i ds hi hn
    rw [safeUnlinkGo, dif_pos hi, hbusy i hi]
    rw [if_pos (by omega)]
    rw [ih (i + 1) (ds ++ [delay * (i + 1)]) (by omega) (by omega)]
    rw [delay_schedule_succ]
    simp

theorem safeUnlinkGo_other (out : Nat → UnlinkOutcome) (retries delay : Nat)
    (msg : String) (k : Nat) (hk : k < retries) (hout : out k = .other msg)
    (hbusy : ∀ j, j < k → out j = .busy) :
    ∀ (n i : Nat) (ds : List Nat), i ≤ k → k - i = n →
      safeUnlinkGo out retries delay i ds = .error msg := by
  intro n
  induction n with
  | zero =>
    intro i ds hik hn
    have : i = k := by omega
    subst this
    rw [safeUnlinkGo, dif_pos hk, hout]
  | succ m ih =>
    intro i ds hik hn
    have hilt : i < k := by omega
    rw [safeUnlinkGo, dif_pos (by omega), hbusy i hilt]
    rw [if_pos (by omega)]
    exact ih (i + 1) _ (by omega) (by omega)

/-- C4: the retryable deleter of fileCleanup.js returns true immediately
with no retries when the file does not exist (ENOENT); when every
attempt hits the EBUSY/EPERM class it makes exactly `retries` attempts
sleeping `delay * attemptNumber` between consecutive attempts and then
returns false without raising; and an error of any other class, reached
after any number of busy attempts, propagates as an exception. -/
theorem safeUnlink_retry_contract (out : Nat → UnlinkOutcome) (retries delay : Nat)
    (hr : 0 < retries) :
    (out 0 = .enoent → safeUnlink out retries delay = .ok (true, [])) ∧
    ((∀ i, i < retries → out i = .busy) →
      safeUnlink out retries delay =
        .ok (false, (List.range (retries - 1)).map (fun j => delay * (j + 1)))) ∧
    (∀ msg k, k < retries → (∀ j, j < k → out j = .busy) → out k = .other msg →
      safeUnlink out retries delay = .error msg) := by
  refine ⟨?_, ?_, ?_⟩
  · intro h
    rw [safeUnlink, safeUnlinkGo, dif_pos hr, h]
  · intro hbusy
    rw [safeUnlink, safeUnlinkGo_all_busy out retries delay hbusy (retries - 1) 0 [] hr (by omega)]
    simp
  · intro msg k hk hbusy hout
    exact safeUnlinkGo_other out retries delay msg k hk hout hbusy k 0 [] (by omega) (by omega)

/-- Witness for C4 at concrete inputs: an ENOENT first attempt returns
true with no sleeps; three all-busy attempts with the default
parameters return false after sleeping 100 then 200 ms; a first-attempt
error of another class propagates. -/
theorem safeUnlink_retry_contract_witness :
    safeUnlink (fun _ => UnlinkOutcome.enoent) 3 100 = .ok (true, []) ∧
    safeUnlink (fun _ => UnlinkOutcome.busy) 3 100 = .ok (false, [100, 200]) ∧
    safeUnlink (fun _ => UnlinkOutcome.other "EISDIR") 3 100 = .error "EISDIR" := by
  obtain ⟨h1, h2, h3⟩ := safeUnlink_retry_contract (fun _ => UnlinkOutcome.busy) 3 100 (by decide)
  obtain ⟨g1, g2, g3⟩ := safeUnlink_retry_contract (fun _ => UnlinkOutcome.enoent) 3 100 (by decide)
  obtain ⟨f1, f2, f3⟩ :=
    safeUnlink_retry_contract (fun _ => UnlinkOutcome.other "EISDIR") 3 100 (by decide)
  refine ⟨g1 rfl, ?_, f3 "EISDIR" 0 (by decide) (fun j hj => absurd hj (by omega)) rfl⟩
  have := h2 (fun i _ => rfl)
  simpa using this

/-! ## Lifecycle sweep theorems -/

theorem cleanupSweep_deleted_subset (del : String → DelOutcome) (now : Int) :
    ∀ (entries : List DirEntry) (x : String),
      x ∈ (cleanupSweep del now entries).deletedNames → x ∈ entries.map DirEntry.name := by
  intro entries
  induction entries with
  | nil => intro x hx; simp [cleanupSweep] at hx
  | cons e rest ih =>
    intro x hx
    rcases e with ⟨nm, k⟩
    simp only [List.map_cons]
    rcases k with _ | mtime | msg
    · simp only [cleanupSweep] at hx
      exact List.mem_cons_of_mem _ (ih x hx)
    · simp only [cleanupSweep] at hx
      by_cases hexp : now - mtime > FILE_EXPIRY_MS
    
      · rw [if_pos hexp] at hx
        rcases hdel : del nm with _ | _ | msg2 <;> rw [hdel] at hx
        · simp only [List.mem_cons] at hx ⊢
          rcases hx with h | h
          · exact Or.inl h
          · exact Or.inr (ih x h)
        · exact List.mem_cons_of_mem _ (ih x hx)
        · exact List.mem_cons_of_mem _ (ih x hx)
      · rw [if_neg hexp] at hx
        exact List.mem_cons_of_mem _ (ih x hx)
    · simp only [cleanupSweep] at hx
      exact List.mem_cons_of_mem _ (ih x hx)

theorem cleanupSweep_mem_deleted (del : String → DelOutcome) (now : Int)
    (name : String) (mtime : Int) (hdel : del name = .deleted) :
    ∀ entries : List DirEntry, (entries.map DirEntry.name).Nodup →
      (⟨name, .fileEntry mtime⟩ : DirEntry) ∈ entries →
      (name ∈ (cleanupSweep del now entries).deletedNames ↔
        now - mtime > FILE_EXPIRY_MS) := by
  intro entries
  induction entries with
  | nil => intro _ h; simp at h
  | cons e rest ih =>
    intro hnodup hmem
    have hnodup2 := hnodup
    simp only [List.map_cons, List.nodup_cons] at hnodup2
    rcases List.mem_cons.mp hmem with heq | hmem2
    · subst heq
      simp only [cleanupSweep]
      by_cases hexp : now - mtime > FILE_EXPIRY_MS
      · rw [if_pos hexp, hdel]
        dsimp only
        constructor
        · intro _; exact hexp
        · intro _; exact List.mem_cons_self _ _
      · rw [if_neg hexp]
        constructor
        · intro hx
          exfalso
          exact hnodup2.left (cleanupSweep_deleted_subset del now rest name hx)
        · intro hx; exact absurd hx hexp
    · have hname_rest : name ∈ rest.map DirEntry.name :=
        List.mem_map.mpr ⟨_, hmem2, rfl⟩
      have hne : e.name ≠ name := fun h => hnodup2.left (h ▸ hname_rest)
      have ihr := ih hnodup2.right hmem2
      rcases e with ⟨nm, k⟩
      simp only at hne
      rcases k with _ | mtime2 | msg
      · simpa only [cleanupSweep] using ihr
      · simp only [cleanupSweep]
        by_cases hexp2 : now - mtime2 > FILE_EXPIRY_MS
        · rw [if_pos hexp2]
          rcases hdel2 : del nm with _ | _ | msg2
          · simp only [List.mem_cons]
            constructor
            · intro hx
              rcases hx with h | h
              · exact absurd h.symm hne
              · exact ihr.mp h
            · intro hx; exact Or.inr (ihr.mpr hx)
          · exact ihr
          · exact ihr
        · rw [if_neg hexp2]; exact ihr
      · simpa only [cleanupSweep] using ihr

/-- C5: one sweep deletes a regular file of the uploads directory if and
only if its age `now - mtime` strictly exceeds the 10-minute expiry
threshold (given that its unlink succeeds), and a missing uploads
directory yields `(cleaned, errors) = (0, 0)` instead of a failure. -/
theorem cleanup_deletes_iff_expired (entries : List DirEntry) (del : String → DelOutcome)
    (now : Int) (name : String) (mtime : Int)
    (hnodup : (entries.map DirEntry.name).Nodup)
    (hmem : (⟨name, .fileEntry mtime⟩ : DirEntry) ∈ entries)
    (hdel : del name = .deleted) :
    (name ∈ (cleanupExpiredFiles true entries del now).deletedNames ↔
      now - mtime > FILE_EXPIRY_MS) ∧
    cleanupExpiredFiles false entries del now = ⟨0, 0, []⟩ := by
  constructor
  · simpa only [cleanupExpiredFiles, if_pos] using
      cleanupSweep_mem_deleted del now name mtime hdel entries hnodup hmem
  · rfl

/-- Witness for C5: with `now = 10^9`, a file 11 minutes old is deleted
by one sweep while a file 9 minutes old survives it, and a missing
directory reports zero work. -/
theorem cleanup_deletes_iff_expired_witness :
    ("old.webp" ∈ (cleanupExpiredFiles true
        [⟨"old.webp", .fileEntry (1000000000 - 11 * 60 * 1000)⟩,
         ⟨"new.webp", .fileEntry (1000000000 - 9 * 60 * 1000)⟩]
        (fun _ => DelOutcome.deleted) 1000000000).deletedNames) ∧
    ("new.webp" ∉ (cleanupExpiredFiles true
        [⟨"old.webp", .fileEntry (1000000000 - 11 * 60 * 1000)⟩,
         ⟨"new.webp", .fileEntry (1000000000 - 9 * 60 * 1000)⟩]
        (fun _ => DelOutcome.deleted) 1000000000).deletedNames) ∧
    cleanupExpiredFiles false
        [⟨"old.webp", .fileEntry (1000000000 - 11 * 60 * 1000)⟩]
        (fun _ => DelOutcome.deleted) 1000000000 = ⟨0, 0, []⟩ := by
  refine ⟨?_, ?_, ?_⟩
  · exact (cleanup_deletes_iff_expired _ _ _ "old.webp" (1000000000 - 11 * 60 * 1000)
      (by decide) (by simp) rfl).left.mpr (by decide)
  · intro hmem
    have h := (cleanup_deletes_iff_expired
      [⟨"old.webp", .fileEntry (1000000000 - 11 * 60 * 1000)⟩,
       ⟨"new.webp", .fileEntry (1000000000 - 9 * 60 * 1000)⟩]
      (fun _ => DelOutcome.deleted) 1000000000 "new.webp" (1000000000 - 9 * 60 * 1000)
      (by decide) (by simp) rfl).left.mp hmem
    revert h
    decide
  · exact (cleanup_deletes_iff_expired _ _ _ "old.webp" (1000000000 - 11 * 60 * 1000)
      (by decide) (by simp) rfl).right

/-! ## Archive assembler theorems -/

theorem addArchiveFiles_eq_filter (safe : String → Bool) (within : String → String → Bool)
    (exfile : String → Bool) (updir : String) :
    ∀ files : List String, addArchiveFiles safe within exfile updir files =
      files.filter (fun n =>
        safe n && within (joinPath updir n) updir && exfile (joinPath updir n)) := by
  intro files
  induction files with
  | nil => rfl
  | cons n rest ih =>
    by_cases h1 : safe n = true <;> by_cases h2 : within (joinPath updir n) updir = true <;>
      by_cases h3 : exfile (joinPath updir n) = true <;>
      simp [addArchiveFiles, h1, h2, h3, ih, List.filter_cons]

/-- C6: `createArchive` skips (without aborting) every requested name
that fails the path-traversal check, the containment check, or does not
currently exist; on success the archive holds exactly the surviving
names in request order; and if no name survives, the whole operation
fails with the explicit error message instead of producing an empty
archive. -/
theorem createArchive_spec (safe : String → Bool) (within : String → String → Bool)
    (exfile : String → Bool) (updir : String) (files : List String) :
    createArchive safe within exfile updir files =
      (if (files.filter (fun n =>
            safe n && within (joinPath updir n) updir && exfile (joinPath updir n))).length = 0
       then .error "No valid files to archive"
       else .ok (files.filter (fun n =>
            safe n && within (joinPath updir n) updir && exfile (joinPath updir n)))) := by
  unfold createArchive
  rw [addArchiveFiles_eq_filter]

/-! ## Video processing theorems -/

/-- C7: when the requested format is `gif`, the ffmpeg command built by
`processVideo` always disables the audio track — the `audio` option is
ignored and no AAC audio option group is ever added. -/
theorem gif_output_has_no_audio (o : VideoOptions) (h : o.format = "gif") :
    FFmpegOpt.noAudio ∈ buildVideoCommand o ∧
    FFmpegOpt.audioCodecAAC ∉ buildVideoCommand o := by
  unfold buildVideoCommand
  rw [if_pos h]
  refine ⟨by simp, ?_⟩
  intro hmem
  simp at hmem

/-- Witness for C7: a GIF request with `audio: true` still yields a
command with audio disabled. -/
theorem gif_output_has_no_audio_witness :
    FFmpegOpt.noAudio ∈ buildVideoCommand ⟨"gif", 100, "2M", "web", true, "percent", none, none, "none"⟩ ∧
    FFmpegOpt.audioCodecAAC ∉ buildVideoCommand ⟨"gif", 100, "2M", "web", true, "percent", none, none, "none"⟩ :=
  gif_output_has_no_audio ⟨"gif", 100, "2M", "web", true, "percent", none, none, "none"⟩ rfl

/-- C8: the bitrate-hint → CRF mapping of `processVideo` is monotone:
a higher requested bitrate never yields a higher CRF value (lower CRF
means higher quality). -/
theorem bitrate_to_crf_monotone (b1 b2 : Int) (h : b1 ≤ b2) :
    crfOfBitrate b2 ≤ crfOfBitrate b1 := by
  unfold crfOfBitrate
  split_ifs <;> omega

/-- Witness for C8 at the concrete bitrates 1 and 2. -/
theorem bitrate_to_crf_monotone_witness : crfOfBitrate 2 ≤ crfOfBitrate 1 :=
  bitrate_to_crf_monotone 1 2 (by decide)

/-! ## Savings rendering helper evaluations -/

theorem savingsRaw_100_150 : savingsRaw 100 150 = "-50.00" := by
  unfold savingsRaw
  have hq : (((100 : Nat) : ℚ) - ((150 : Nat) : ℚ)) / ((100 : Nat) : ℚ) * 100 = -50 := by
    norm_num
  rw [hq]
  unfold toFixed2
  have hf : ⌊(-50 : ℚ) * 100 + 1 / 2⌋ = -5000 := by
    rw [Int.floor_eq_iff]
    norm_num
  rw [hf]
  decide

/-! ## End-to-end SVG dual-format scenario -/

/-- C2 (amended): a batch holding one vector-graphics input with
formats `['webp','svg']` yields two FileResults for that input — one
from the raster-conversion pass holding exactly one `webp` artifact,
and one from the SVG-optimization pass holding exactly one `svg`
artifact — and the original source is deleted exactly once, only after
both artifacts have been produced (not after the raster pass). -/
theorem svg_dual_format_two_results (o s1 s2 : Nat) :
    processImages (svgEnv o s1 s2) [svgFileA] webpSvgOpts ["a.svg"] =
      ([successResult "a.svg" o [⟨"webp", "a.webp", s1, savingsClamped o s1⟩] none,
        successResult "a.svg" o [⟨"svg", "a_1.svg", s2, savingsRaw o s2⟩] none],
       ["a.webp", "a_1.svg"],
       [.produced "a.svg" "webp" "a.webp", .produced "a.svg" "svg" "a_1.svg",
        .deleted "a.svg"]) := rfl

/-- Counterexample to C2 as stated: the single `.svg` input with
formats `['webp','svg']` does not get one FileResult with two
artifacts; the batch result holds two FileResults for it, each with
exactly one artifact. -/
theorem svg_dual_format_not_single_result :
    ((processImages (svgEnv 100 50 40) [svgFileA] webpSvgOpts ["a.svg"]).1.filter
        (fun r => r.name == "a.svg")).length = 2 ∧
    ((processImages (svgEnv 100 50 40) [svgFileA] webpSvgOpts ["a.svg"]).1.map
        (fun r => (r.processedFiles.getD []).length)) = [1, 1] := by
  constructor
  · decide
  · decide

/-- Counterexample to C1 as stated: a batch of N = 1 files whose single
member is a `.svg` with formats `['webp','svg']` returns a result list
of length 2, not N. -/
theorem batch_not_length_preserving :
    [svgFileA].length = 1 ∧
    (processImages (svgEnv 100 50 40) [svgFileA] webpSvgOpts ["a.svg"]).1.length = 2 := by
  constructor
  · rfl
  · decide

/-! ## Savings clamp policy -/

/-- C10 (amended): the savings display policy differs per pass. An
artifact produced by the SVG→raster conversion pass reports the
clamped value `savingsClamped` (the raw two-decimal percentage when
the output is smaller than the original, `'0.00'` otherwise), while an
artifact produced by the ordinary raster pass reports the raw signed
two-decimal percentage `savingsRaw` without clamping; for the clamped
site, a produced size at least the original forces exactly `'0.00'`, a
reported `'0.00'` implies the output was not smaller unless the raw
display itself was `'0.00'`, and below the original the clamped and
raw displays agree. -/
theorem savings_policy_per_site (o s : Nat) :
    (processImages (svgEnv o s 0) [svgFileA] webpOpts ["a.svg"]).1 =
      [successResult "a.svg" o [⟨"webp", "a.webp", s, savingsClamped o s⟩] none] ∧
    (processImages (rasterEnv o s) [rasterFileB] webpOpts ["b.png"]).1 =
      [successResult "b.png" o [⟨"webp", "b.webp", s, savingsRaw o s⟩] none] ∧
    (o ≤ s → savingsClamped o s = "0.00") ∧
    (savingsClamped o s = "0.00" → o ≤ s ∨ savingsRaw o s = "0.00") ∧
    (s < o → savingsClamped o s = savingsRaw o s) := by
  refine ⟨rfl, rfl, ?_, ?_, ?_⟩
  · intro h
    unfold savingsClamped
    rw [if_neg (by omega)]
  · intro h
    by_cases hlt : s < o
    · right
      unfold savingsClamped at h
      rw [if_pos hlt] at h
      exact h
    · left; omega
  · intro h
    unfold savingsClamped
    rw [if_pos h]

/-- Witness for C10 (amended) at concrete sizes 100/150 and 100/50. -/
theorem savings_policy_per_site_witness :
    savingsClamped 100 150 = "0.00" ∧ savingsClamped 100 50 = savingsRaw 100 50 := by
  exact ⟨(savings_policy_per_site 100 150).2.2.1 (by omega),
    (savings_policy_per_site 100 50).2.2.2.2 (by omega)⟩

/-- Counterexample to C10 as stated: an ordinary raster artifact whose
produced size (150) exceeds the original (100) reports `'-50.00'`,
not the clamped `'0.00'` — the ordinary raster pass does not clamp. -/
theorem raster_savings_not_clamped :
    (processImages (rasterEnv 100 150) [rasterFileB] webpOpts ["b.png"]).1 =
      [successResult "b.png" 100 [⟨"webp", "b.webp", 150, "-50.00"⟩] none] ∧
    ("-50.00" : String) ≠ "0.00" := by
  constructor
  · rw [← savingsRaw_100_150]
    rfl
  · decide

/-! ## Pass machinery lemmas -/

theorem encodeFormats_dir_mono (enc : String → String → Except String Nat)
    (src orig base : String) (o : Nat) (clamp : Bool) :
    ∀ (fmts dir : List String) (evs : List Ev) (acc : List Artifact) (x : String),
      x ∈ dir → x ∈ (encodeFormats enc src orig base o clamp fmts dir evs acc).2.1 := by
  intro fmts
  induction fmts with
  | nil => intro dir evs acc x hx; exact hx
  | cons f rest ih =>
    intro dir evs acc x hx
    simp only [encodeFormats]
    cases henc : enc src f with
    | error m => exact hx
    | ok s => exact ih _ _ _ x (List.mem_append_left _ hx)

theorem encodeFormats_error_iff (enc : String → String → Except String Nat)
    (src orig base : String) (o : Nat) (clamp : Bool) :
    ∀ (fmts dir : List String) (evs : List Ev) (acc : List Artifact) (m : String),
      ((encodeFormats enc src orig base o clamp fmts dir evs acc).1 = .error m ↔
        pipeErr enc src fmts = some m) := by
  intro fmts
  induction fmts with
  | nil => intro dir evs acc m; simp [encodeFormats, pipeErr]
  | cons f rest ih =>
    intro dir evs acc m
    cases henc : enc src f with
    | error m2 => simp [encodeFormats, pipeErr, henc]
    | ok s => simp only [encodeFormats, pipeErr, henc]; exact ih _ _ _ m

theorem encodeFormats_ok_length (enc : String → String → Except String Nat)
    (src orig base : String) (o : Nat) (clamp : Bool) :
    ∀ (fmts dir : List String) (evs : List Ev) (acc arts : List Artifact),
      (encodeFormats enc src orig base o clamp fmts dir evs acc).1 = .ok arts →
      arts.length = acc.length + fmts.length := by
  intro fmts
  induction fmts with
  | nil =>
    intro dir evs acc arts h
    simp only [encodeFormats, Except.ok.injEq] at h
    simp [← h]
  | cons f rest ih =>
    intro dir evs acc arts h
    simp only [encodeFormats] at h
    cases henc : enc src f with
    | error m => rw [henc] at h; simp at h
    | ok s =>
      rw [henc] at h
      have := ih _ _ _ arts h
      simp only [List.length_append, List.length_cons, List.length_nil] at this ⊢
      omega

theorem processOneFile_view (sizeOf : String → Nat) (enc : String → String → Except String Nat)
    (busy : String → Bool) (cfg : PassCfg) (f : UploadedFile) (dir : List String) (evs : List Ev)
    (hin : f.path ∈ dir) (hne : cfg.pushAlways = true ∨ cfg.fmts ≠ []) :
    ((processOneFile sizeOf enc busy cfg f dir evs).1).map view =
      some (passView enc cfg.fmts f) := by
  simp only [processOneFile, if_pos hin]
  cases hE : (encodeFormats enc f.path f.originalname (baseNameNoExt f.originalname)
      (sizeOf f.path) cfg.clamp cfg.fmts dir evs []).1 with
  | error m =>
    have hpe : pipeErr enc f.path cfg.fmts = some m :=
      (encodeFormats_error_iff enc f.path f.originalname _ _ _ cfg.fmts dir evs [] m).mp hE
    simp [passView, hpe, view, errorResult]
  | ok arts =>
    have hpe : pipeErr enc f.path cfg.fmts = none := by
      cases hp : pipeErr enc f.path cfg.fmts with
      | none => rfl
      | some m =>
        have h2 := (encodeFormats_error_iff enc f.path f.originalname
          (baseNameNoExt f.originalname) (sizeOf f.path) cfg.clamp cfg.fmts dir evs [] m).mpr hp
        rw [hE] at h2
        exact absurd h2 (by simp)
    have harts : arts.length = cfg.fmts.length := by
      have := encodeFormats_ok_length enc f.path f.originalname _ _ _ cfg.fmts dir evs [] arts hE
      simpa using this
    have hsome : pushResult cfg f.originalname (sizeOf f.path) arts =
        some (successResult f.originalname (sizeOf f.path) arts cfg.procLabel) := by
      unfold pushResult
      by_cases hpa : cfg.pushAlways = true
      · rw [if_pos hpa]
      · rw [if_neg hpa, if_pos (show arts.length ≠ 0 by
          rw [harts]
          exact fun h => (hne.resolve_left hpa) (List.length_eq_zero.mp h))]
    have hmem2 : f.path ∈ (encodeFormats enc f.path f.originalname (baseNameNoExt f.originalname)
        (sizeOf f.path) cfg.clamp cfg.fmts dir evs []).2.1 :=
      encodeFormats_dir_mono enc f.path f.originalname _ _ _ cfg.fmts dir evs [] f.path hin
    dsimp only
    by_cases hdo : cfg.delOrig = true
    · rw [if_pos hdo]
      unfold safeUnlinkProc
      rw [if_pos hmem2]
      by_cases hb : busy f.path = true
      · rw [if_pos hb]
        simp [hsome, view, successResult, passView, hpe]
      · rw [if_neg hb]
        simp [hsome, view, successResult, passView, hpe]
    · rw [if_neg hdo]
      simp [hsome, view, successResult, passView, hpe]

theorem processOneFile_isSome (sizeOf : String → Nat) (enc : String → String → Except String Nat)
    (busy : String → Bool) (cfg : PassCfg) (f : UploadedFile) (dir : List String) (evs : List Ev)
    (hne : cfg.pushAlways = true ∨ cfg.fmts ≠ []) :
    ((processOneFile sizeOf enc busy cfg f dir evs).1).isSome = true := by
  simp only [processOneFile]
  by_cases hin : f.path ∈ dir
  · rw [if_pos hin]
    cases hE : (encodeFormats enc f.path f.originalname (baseNameNoExt f.originalname)
        (sizeOf f.path) cfg.clamp cfg.fmts dir evs []).1 with
    | error m => simp
    | ok arts =>
      have harts : arts.length = cfg.fmts.length := by
        have := encodeFormats_ok_length enc f.path f.originalname _ _ _ cfg.fmts dir evs [] arts hE
        simpa using this
      have hsome : (pushResult cfg f.originalname (sizeOf f.path) arts).isSome = true := by
        unfold pushResult
        by_cases hpa : cfg.pushAlways = true
        · rw [if_pos hpa]; rfl
        · rw [if_neg hpa, if_pos (show arts.length ≠ 0 by
            rw [harts]
            exact fun h => (hne.resolve_left hpa) (List.length_eq_zero.mp h))]
          rfl
      dsimp only
      by_cases hdo : cfg.delOrig = true
      · rw [if_pos hdo]
        cases hu : safeUnlinkProc busy f.path (encodeFormats enc f.path f.originalname
            (baseNameNoExt f.originalname) (sizeOf f.path) cfg.clamp cfg.fmts dir evs []).2.1 with
        | error m => simp
        | ok pr =>
          rcases pr with ⟨dir3, removed⟩
          simpa using hsome
      · rw [if_neg hdo]
        simpa using hsome
  · rw [if_neg hin]
    simp

theorem processOneFile_dir (sizeOf : String → Nat) (enc : String → String → Except String Nat)
    (busy : String → Bool) (cfg : PassCfg) (f : UploadedFile) (dir : List String) (evs : List Ev)
    (x : String) (hx : x ∈ dir) (hxne : x ≠ f.path) :
    x ∈ (processOneFile sizeOf enc busy cfg f dir evs).2.1 := by
  simp only [processOneFile]
  by_cases hin : f.path ∈ dir
  · rw [if_pos hin]
    have hx2 : x ∈ (encodeFormats enc f.path f.originalname (baseNameNoExt f.originalname)
        (sizeOf f.path) cfg.clamp cfg.fmts dir evs []).2.1 :=
      encodeFormats_dir_mono enc f.path f.originalname _ _ _ cfg.fmts dir evs [] x hx
    cases hE : (encodeFormats enc f.path f.originalname (baseNameNoExt f.originalname)
        (sizeOf f.path) cfg.clamp cfg.fmts dir evs []).1 with
    | error m => exact hx2
    | ok arts =>
      dsimp only
      by_cases hdo : cfg.delOrig = true
      · rw [if_pos hdo]
        unfold safeUnlinkProc
        by_cases hm : f.path ∈ (encodeFormats enc f.path f.originalname (baseNameNoExt f.originalname)
            (sizeOf f.path) cfg.clamp cfg.fmts dir evs []).2.1
        · rw [if_pos hm]
          by_cases hb : busy f.path = true
          · rw [if_pos hb]; exact hx2
          · rw [if_neg hb]
            exact (List.mem_erase_of_ne hxne).mpr hx2
        · rw [if_neg hm]
          exact hx2
      · rw [if_neg hdo]
        exact hx2
  · rw [if_neg hin]
    exact hx

theorem processOneFile_dir_keep (sizeOf : String → Nat) (enc : String → String → Except String Nat)
    (busy : String → Bool) (cfg : PassCfg) (f : UploadedFile) (dir : List String) (evs : List Ev)
    (hdo : cfg.delOrig = false) (x : String) (hx : x ∈ dir) :
    x ∈ (processOneFile sizeOf enc busy cfg f dir evs).2.1 := by
  simp only [processOneFile]
  by_cases hin : f.path ∈ dir
  · rw [if_pos hin]
    have hx2 : x ∈ (encodeFormats enc f.path f.originalname (baseNameNoExt f.originalname)
        (sizeOf f.path) cfg.clamp cfg.fmts dir evs []).2.1 :=
      encodeFormats_dir_mono enc f.path f.originalname _ _ _ cfg.fmts dir evs [] x hx
    cases hE : (encodeFormats enc f.path f.originalname (baseNameNoExt f.originalname)
        (sizeOf f.path) cfg.clamp cfg.fmts dir evs []).1 with
    | error m => exact hx2
    | ok arts =>
      dsimp only
      rw [if_neg (by rw [hdo]; exact Bool.false_ne_true)]
      exact hx2
  · rw [if_neg hin]
    exact hx

theorem runPass_length (sizeOf : String → Nat) (enc : String → String → Except String Nat)
    (busy : String → Bool) (cfg : PassCfg) (hne : cfg.pushAlways = true ∨ cfg.fmts ≠ []) :
    ∀ (fs : List UploadedFile) (dir : List String) (evs : List Ev),
      (runPass sizeOf enc busy cfg fs dir evs).1.length = fs.length := by
  intro fs
  induction fs with
  | nil => intro dir evs; rfl
  | cons f rest ih =>
    intro dir evs
    simp only [runPass, List.length_append, List.length_cons]
    have h := processOneFile_isSome sizeOf enc busy cfg f dir evs hne
    have h1 : ((processOneFile sizeOf enc busy cfg f dir evs).1).toList.length = 1 := by
      cases hp : (processOneFile sizeOf enc busy cfg f dir evs).1 with
      | none => rw [hp] at h; simp at h
      | some r => simp
    rw [h1, ih]
    omega

theorem runPass_views (sizeOf : String → Nat) (enc : String → String → Except String Nat)
    (busy : String → Bool) (cfg : PassCfg) (hne : cfg.pushAlways = true ∨ cfg.fmts ≠ []) :
    ∀ (fs : List UploadedFile) (dir : List String) (evs : List Ev),
      (∀ f, f ∈ fs → f.path ∈ dir) → (fs.map UploadedFile.path).Nodup →
      (runPass sizeOf enc busy cfg fs dir evs).1.map view =
        fs.map (passView enc cfg.fmts) := by
  intro fs
  induction fs with
  | nil => intro dir evs _ _; rfl
  | cons f rest ih =>
    intro dir evs hin hnd
    have hnd2 := hnd
    simp only [List.map_cons, List.nodup_cons] at hnd2
    have hview := processOneFile_view sizeOf enc busy cfg f dir evs
      (hin f (List.mem_cons_self f rest)) hne
    have hrest : ∀ g, g ∈ rest → g.path ∈ (processOneFile sizeOf enc busy cfg f dir evs).2.1 := by
      intro g hg
      apply processOneFile_dir
      · exact hin g (List.mem_cons_of_mem f hg)
      · intro hgp
        exact hnd2.left (hgp ▸ List.mem_map.mpr ⟨g, hg, rfl⟩)
    simp only [runPass, List.map_append, List.map_cons]
    rw [ih _ _ hrest hnd2.right]
    cases hp : (processOneFile sizeOf enc busy cfg f dir evs).1 with
    | none => rw [hp] at hview; simp at hview
    | some r =>
      rw [hp] at hview
      simp only [Option.map_some', Option.some.injEq] at hview
      simp [hview]

theorem runPass_dir (sizeOf : String → Nat) (enc : String → String → Except String Nat)
    (busy : String → Bool) (cfg : PassCfg) :
    ∀ (fs : List UploadedFile) (dir : List String) (evs : List Ev) (x : String),
      x ∈ dir → x ∉ fs.map UploadedFile.path →
      x ∈ (runPass sizeOf enc busy cfg fs dir evs).2.1 := by
  intro fs
  induction fs with
  | nil => intro dir evs x hx _; exact hx
  | cons f rest ih =>
    intro dir evs x hx hnx
    simp only [List.map_cons, List.mem_cons, not_or] at hnx
    simp only [runPass]
    exact ih _ _ x (processOneFile_dir sizeOf enc busy cfg f dir evs x hx hnx.left) hnx.right

theorem runPass_dir_keep (sizeOf : String → Nat) (enc : String → String → Except String Nat)
    (busy : String → Bool) (cfg : PassCfg) (hdo : cfg.delOrig = false) :
    ∀ (fs : List UploadedFile) (dir : List String) (evs : List Ev) (x : String),
      x ∈ dir → x ∈ (runPass sizeOf enc busy cfg fs dir evs).2.1 := by
  intro fs
  induction fs with
  | nil => intro dir evs x hx; exact hx
  | cons f rest ih =>
    intro dir evs x hx
    simp only [runPass]
    exact ih _ _ x (processOneFile_dir_keep sizeOf enc busy cfg f dir evs hdo x hx)

theorem optimizeSVGFile_view (sizeOf : String → Nat) (svgo : String → Except String Nat)
    (busy : String → Bool) (f : UploadedFile) (dir : List String) (evs : List Ev)
    (hin : f.path ∈ dir) :
    view (optimizeSVGFile sizeOf svgo busy f dir evs).1 = svgOptView svgo f := by
  simp only [optimizeSVGFile, if_pos hin]
  cases hs : svgo f.path with
  | error m => simp [view, errorResult, svgOptView, hs]
  | ok s =>
    dsimp only
    by_cases hne : f.path ≠ getUniqueFilename dir (baseNameNoExt f.originalname) "svg"
    · rw [if_pos hne]
      unfold safeUnlinkProc
      rw [if_pos (List.mem_append_left _ hin)]
      by_cases hb : busy f.path = true
      · rw [if_pos hb]; simp [view, successResult, svgOptView, hs]
      · rw [if_neg hb]; simp [view, successResult, svgOptView, hs]
    · rw [if_neg hne]
      simp [view, successResult, svgOptView, hs]

theorem optimizeSVGFile_dir (sizeOf : String → Nat) (svgo : String → Except String Nat)
    (busy : String → Bool) (f : UploadedFile) (dir : List String) (evs : List Ev)
    (x : String) (hx : x ∈ dir) (hxne : x ≠ f.path) :
    x ∈ (optimizeSVGFile sizeOf svgo busy f dir evs).2.1 := by
  simp only [optimizeSVGFile]
  by_cases hin : f.path ∈ dir
  · rw [if_pos hin]
    cases hs : svgo f.path with
    | error m => exact hx
    | ok s =>
      dsimp only
      by_cases hne2 : f.path ≠ getUniqueFilename dir (baseNameNoExt f.originalname) "svg"
      · rw [if_pos hne2]
        unfold safeUnlinkProc
        rw [if_pos (List.mem_append_left _ hin)]
        by_cases hb : busy f.path = true
        · rw [if_pos hb]; exact List.mem_append_left _ hx
        · rw [if_neg hb]
          exact (List.mem_erase_of_ne hxne).mpr (List.mem_append_left _ hx)
      · rw [if_neg hne2]
        exact List.mem_append_left _ hx
  · rw [if_neg hin]; exact hx

theorem optimizeSVGs_length (sizeOf : String → Nat) (svgo : String → Except String Nat)
    (busy : String → Bool) :
    ∀ (fs : List UploadedFile) (dir : List String) (evs : List Ev),
      (optimizeSVGs sizeOf svgo busy fs dir evs).1.length = fs.length := by
  intro fs
  induction fs with
  | nil => intro dir evs; rfl
  | cons f rest ih =>
    intro dir evs
    simp only [optimizeSVGs, List.length_cons]
    rw [ih]

theorem optimizeSVGs_views (sizeOf : String → Nat) (svgo : String → Except String Nat)
    (busy : String → Bool) :
    ∀ (fs : List UploadedFile) (dir : List String) (evs : List Ev),
      (∀ f, f ∈ fs → f.path ∈ dir) → (fs.map UploadedFile.path).Nodup →
      (optimizeSVGs sizeOf svgo busy fs dir evs).1.map view = fs.map (svgOptView svgo) := by
  intro fs
  induction fs with
  | nil => intro dir evs _ _; rfl
  | cons f rest ih =>
    intro dir evs hin hnd
    have hnd2 := hnd
    simp only [List.map_cons, List.nodup_cons] at hnd2
    have hview := optimizeSVGFile_view sizeOf svgo busy f dir evs (hin f (List.mem_cons_self f rest))
    have hrest : ∀ g, g ∈ rest → g.path ∈ (optimizeSVGFile sizeOf svgo busy f dir evs).2.1 := by
      intro g hg
      apply optimizeSVGFile_dir
      · exact hin g (List.mem_cons_of_mem f hg)
      · intro hgp
        exact hnd2.left (hgp ▸ List.mem_map.mpr ⟨g, hg, rfl⟩)
    simp only [optimizeSVGs, List.map_cons]
    rw [ih _ _ hrest hnd2.right, hview]

theorem optimizeSVGs_dir (sizeOf : String → Nat) (svgo : String → Except String Nat)
    (busy : String → Bool) :
    ∀ (fs : List UploadedFile) (dir : List String) (evs : List Ev) (x : String),
      x ∈ dir → x ∉ fs.map UploadedFile.path →
      x ∈ (optimizeSVGs sizeOf svgo busy fs dir evs).2.1 := by
  intro fs
  induction fs with
  | nil => intro dir evs x hx _; exact hx
  | cons f rest ih =>
    intro dir evs x hx hnx
    simp only [List.map_cons, List.mem_cons, not_or] at hnx
    simp only [optimizeSVGs]
    exact ih _ _ x (optimizeSVGFile_dir sizeOf svgo busy f dir evs x hx hnx.left) hnx.right

/-! ## Classification facts -/

theorem svg_not_magick (f : UploadedFile) (h : isSvgFile f = true) :
    shouldUseImageMagick f.originalname = false := by
  unfold isSvgFile at h
  have he : extLower f.originalname = ".svg" := eq_of_beq h
  unfold shouldUseImageMagick
  rw [he]
  decide

theorem raster_filter_ne_nil (fmts : List String)
    (h : fmts.any (fun f => RASTER_FORMATS.contains f) = true) :
    fmts.filter (fun f => RASTER_FORMATS.contains f) ≠ [] := by
  obtain ⟨x, hx, hpx⟩ := List.any_eq_true.mp h
  intro hc
  have hmem : x ∈ fmts.filter (fun f => RASTER_FORMATS.contains f) :=
    List.mem_filter.mpr ⟨hx, hpx⟩
  rw [hc] at hmem
  exact absurd hmem (List.not_mem_nil x)

theorem path_notin_filter (files : List UploadedFile)
    (hnodup : (files.map UploadedFile.path).Nodup)
    (p : UploadedFile → Bool) (f : UploadedFile) (hf : f ∈ files) (hpf : p f = false) :
    f.path ∉ (files.filter p).map UploadedFile.path := by
  intro hmem
  obtain ⟨g, hg, hgp⟩ := List.mem_map.mp hmem
  have hgfiles : g ∈ files := (List.mem_filter.mp hg).left
  have hgp2 : p g = true := (List.mem_filter.mp hg).right
  have hgf : g = f := List.inj_on_of_nodup_map hnodup hgfiles hf hgp
  rw [hgf, hpf] at hgp2
  exact absurd hgp2 (by simp)

theorem filter_map_path_nodup (files : List UploadedFile)
    (hnodup : (files.map UploadedFile.path).Nodup) (p : UploadedFile → Bool) :
    ((files.filter p).map UploadedFile.path).Nodup :=
  ((List.filter_sublist files).map UploadedFile.path).nodup hnodup

theorem svgFilesOf_path_nodup (files : List UploadedFile)
    (hnodup : (files.map UploadedFile.path).Nodup) :
    ((svgFilesOf files).map UploadedFile.path).Nodup :=
  filter_map_path_nodup files hnodup isSvgFile

theorem imFilesOf_path_nodup (files : List UploadedFile) (opts : ImgOptions)
    (hnodup : (files.map UploadedFile.path).Nodup) :
    ((imFilesOf files opts).map UploadedFile.path).Nodup := by
  unfold imFilesOf
  by_cases h : opts.useImageMagick = true
  · rw [if_pos h]; exact filter_map_path_nodup files hnodup _
  · rw [if_neg h]; exact List.nodup_nil

theorem rasterFilesOf_path_nodup (files : List UploadedFile) (opts : ImgOptions)
    (hnodup : (files.map UploadedFile.path).Nodup) :
    ((rasterFilesOf files opts).map UploadedFile.path).Nodup :=
  filter_map_path_nodup files hnodup _

theorem imFilesOf_not_svg_path (files : List UploadedFile) (opts : ImgOptions)
    (hnodup : (files.map UploadedFile.path).Nodup) (f : UploadedFile)
    (hf : f ∈ imFilesOf files opts) : f.path ∉ (svgFilesOf files).map UploadedFile.path := by
  unfold imFilesOf at hf
  by_cases h : opts.useImageMagick = true
  · rw [if_pos h] at hf
    have hfl : f ∈ files := (List.mem_filter.mp hf).left
    have hm : shouldUseImageMagick f.originalname = true := (List.mem_filter.mp hf).right
    have hs : isSvgFile f = false := by
      cases hc : isSvgFile f with
      | false => rfl
      | true => rw [svg_not_magick f hc] at hm; exact absurd hm (by simp)
    exact path_notin_filter files hnodup isSvgFile f hfl hs
  · rw [if_neg h] at hf
    exact absurd hf (List.not_mem_nil f)

theorem rasterFilesOf_not_svg_path (files : List UploadedFile) (opts : ImgOptions)
    (hnodup : (files.map UploadedFile.path).Nodup) (f : UploadedFile)
    (hf : f ∈ rasterFilesOf files opts) : f.path ∉ (svgFilesOf files).map UploadedFile.path := by
  have hfl : f ∈ files := (List.mem_filter.mp hf).left
  have hp := (List.mem_filter.mp hf).right
  have hs : isSvgFile f = false := by
    cases hc : isSvgFile f with
    | false => rfl
    | true => rw [hc] at hp; simp at hp
  exact path_notin_filter files hnodup isSvgFile f hfl hs

theorem rasterFilesOf_not_magick_path (files : List UploadedFile) (opts : ImgOptions)
    (hnodup : (files.map UploadedFile.path).Nodup) (huim : opts.useImageMagick = true)
    (f : UploadedFile) (hf : f ∈ rasterFilesOf files opts) :
    f.path ∉ (imFilesOf files opts).map UploadedFile.path := by
  have hfl : f ∈ files := (List.mem_filter.mp hf).left
  have hp := (List.mem_filter.mp hf).right
  have hm : shouldUseImageMagick f.originalname = false := by
    rw [huim] at hp
    cases hc : shouldUseImageMagick f.originalname with
    | false => rfl
    | true => rw [hc] at hp; simp at hp
  unfold imFilesOf
  rw [if_pos huim]
  exact path_notin_filter files hnodup _ f hfl hm

/-! ## Section lemmas -/

theorem svgSection_views (env : Env) (opts : ImgOptions) (svgFiles : List UploadedFile)
    (dir : List String)
    (hin : ∀ f, f ∈ svgFiles → f.path ∈ dir)
    (hnd : (svgFiles.map UploadedFile.path).Nodup) :
    (svgSection env opts svgFiles dir).1.map view =
      (if 0 < svgFiles.length ∧ opts.formats.any (fun f => RASTER_FORMATS.contains f) = true
       then svgFiles.map (passView env.encode (svgRasterCfg opts (opts.formats.contains "svg")).fmts)
       else [])
      ++ (if 0 < svgFiles.length ∧ opts.formats.contains "svg" = true
       then svgFiles.map (svgOptView env.svgo)
       else []) := by
  unfold svgSection
  by_cases h0 : 0 < svgFiles.length
  · rw [if_pos h0]
    dsimp only
    by_cases hR : opts.formats.any (fun f => RASTER_FORMATS.contains f) = true
    · rw [if_pos hR]
      have hne : (svgRasterCfg opts (opts.formats.contains "svg")).pushAlways = true ∨
          (svgRasterCfg opts (opts.formats.contains "svg")).fmts ≠ [] :=
        Or.inr (raster_filter_ne_nil opts.formats hR)
      by_cases hS : opts.formats.contains "svg" = true
      · rw [if_pos hS]
        have hdel : (svgRasterCfg opts (opts.formats.contains "svg")).delOrig = false := by
          unfold svgRasterCfg
          rw [hS]
          rfl
        have hina : ∀ f, f ∈ svgFiles → f.path ∈ (runPass env.sizeOf env.encode env.busy
            (svgRasterCfg opts (opts.formats.contains "svg")) svgFiles dir []).2.1 :=
          fun f hf => runPass_dir_keep env.sizeOf env.encode env.busy _ hdel svgFiles dir []
            f.path (hin f hf)
        rw [List.map_append]
        rw [runPass_views env.sizeOf env.encode env.busy _ hne svgFiles dir [] hin hnd]
        rw [optimizeSVGs_views env.sizeOf env.svgo env.busy svgFiles _ _ hina hnd]
        rw [if_pos ⟨h0, hR⟩, if_pos ⟨h0, hS⟩]
      · rw [if_neg hS]
        rw [List.map_append]
        rw [runPass_views env.sizeOf env.encode env.busy _ hne svgFiles dir [] hin hnd]
        rw [if_pos ⟨h0, hR⟩, if_neg (fun hc => hS hc.right)]
        simp
    · rw [if_neg hR]
      by_cases hS : opts.formats.contains "svg" = true
      · rw [if_pos hS]
        rw [List.map_append]
        rw [optimizeSVGs_views env.sizeOf env.svgo env.busy svgFiles _ _ hin hnd]
        rw [if_neg (fun hc => hR hc.right), if_pos ⟨h0, hS⟩]
        simp
      · rw [if_neg hS]
        rw [if_neg (fun hc => hR hc.right), if_neg (fun hc => hS hc.right)]
        simp
  · rw [if_neg h0]
    rw [if_neg (fun hc => h0 hc.left), if_neg (fun hc => h0 hc.left)]
    simp

theorem svgSection_dir (env : Env) (opts : ImgOptions) (svgFiles : List UploadedFile)
    (dir : List String) (x : String)
    (hx : x ∈ dir) (hnx : x ∉ svgFiles.map UploadedFile.path) :
    x ∈ (svgSection env opts svgFiles dir).2.1 := by
  unfold svgSection
  by_cases h0 : 0 < svgFiles.length
  · rw [if_pos h0]
    dsimp only
    by_cases hR : opts.formats.any (fun f => RASTER_FORMATS.contains f) = true
    · rw [if_pos hR]
      have hxa : x ∈ (runPass env.sizeOf env.encode env.busy
          (svgRasterCfg opts (opts.formats.contains "svg")) svgFiles dir []).2.1 :=
        runPass_dir env.sizeOf env.encode env.busy _ svgFiles dir [] x hx hnx
      by_cases hS : opts.formats.contains "svg" = true
      · rw [if_pos hS]
        exact optimizeSVGs_dir env.sizeOf env.svgo env.busy svgFiles _ _ x hxa hnx
      · rw [if_neg hS]
        exact hxa
    · rw [if_neg hR]
      by_cases hS : opts.formats.contains "svg" = true
      · rw [if_pos hS]
        exact optimizeSVGs_dir env.sizeOf env.svgo env.busy svgFiles _ _ x hx hnx
      · rw [if_neg hS]
        exact hx
  · rw [if_neg h0]
    exact hx

theorem svgSection_length (env : Env) (opts : ImgOptions) (svgFiles : List UploadedFile)
    (dir : List String) :
    (svgSection env opts svgFiles dir).1.length =
      svgFiles.length *
        ((if opts.formats.any (fun f => RASTER_FORMATS.contains f) = true then 1 else 0)
          + (if opts.formats.contains "svg" = true then 1 else 0)) := by
  unfold svgSection
  by_cases h0 : 0 < svgFiles.length
  · rw [if_pos h0]
    dsimp only
    by_cases hR : opts.formats.any (fun f => RASTER_FORMATS.contains f) = true
    · have hne : (svgRasterCfg opts (opts.formats.contains "svg")).pushAlways = true ∨
          (svgRasterCfg opts (opts.formats.contains "svg")).fmts ≠ [] :=
        Or.inr (raster_filter_ne_nil opts.formats hR)
      by_cases hS : opts.formats.contains "svg" = true
      · rw [if_pos hR, if_pos hS]
        rw [List.length_append]
        rw [runPass_length env.sizeOf env.encode env.busy _ hne svgFiles dir []]
        rw [optimizeSVGs_length env.sizeOf env.svgo env.busy svgFiles _ _]
        rw [if_pos hR, if_pos hS]
        ring
      · rw [if_pos hR, if_neg hS]
        rw [List.length_append]
        rw [runPass_length env.sizeOf env.encode env.busy _ hne svgFiles dir []]
        rw [if_pos hR, if_neg hS]
        simp
    · by_cases hS : opts.formats.contains "svg" = true
      · rw [if_neg hR, if_pos hS]
        rw [List.length_append]
        rw [optimizeSVGs_length env.sizeOf env.svgo env.busy svgFiles _ _]
        rw [if_neg hR, if_pos hS]
        simp
      · rw [if_neg hR, if_neg hS]
        rw [if_neg hR, if_neg hS]
        simp
  · rw [if_neg h0]
    have hz : svgFiles.length = 0 := by omega
    simp [hz]

theorem magickSection_views (env : Env) (opts : ImgOptions)
    (imFiles rasterFiles : List UploadedFile) (dir : List String) (evs : List Ev)
    (hin : ∀ f, f ∈ imFiles → f.path ∈ dir)
    (hnd : (imFiles.map UploadedFile.path).Nodup) :
    (magickSection env opts imFiles rasterFiles dir evs).1.map view =
      (if 0 < imFiles.length ∧ env.avail1 = true ∧ env.avail2 = true
       then imFiles.map (passView env.magickEncode (magickCfg opts).fmts)
       else []) := by
  unfold magickSection processWithImageMagick
  by_cases h0 : 0 < imFiles.length
  · rw [if_pos h0]
    by_cases ha1 : env.avail1 = true
    · rw [if_pos ha1]
      by_cases ha2 : env.avail2 = true
      · rw [if_pos ha2]
        dsimp only
        rw [runPass_views env.sizeOf env.magickEncode env.busy (magickCfg opts)
          (Or.inl rfl) imFiles dir evs hin hnd]
        rw [if_pos ⟨h0, ha1, ha2⟩]
      · rw [if_neg ha2]
        rw [if_neg (fun hc => ha2 hc.right.right)]
        rfl
    · rw [if_neg ha1]
      rw [if_neg (fun hc => ha1 hc.right.left)]
      rfl
  · rw [if_neg h0]
    rw [if_neg (fun hc => h0 hc.left)]
    rfl

theorem magickSection_sharp (env : Env) (opts : ImgOptions)
    (imFiles rasterFiles : List UploadedFile) (dir : List String) (evs : List Ev) :
    (magickSection env opts imFiles rasterFiles dir evs).2.1 =
      (if 0 < imFiles.length ∧ ¬(env.avail1 = true ∧ env.avail2 = true)
       then rasterFiles ++ imFiles else rasterFiles) := by
  unfold magickSection processWithImageMagick
  by_cases h0 : 0 < imFiles.length
  · rw [if_pos h0]
    by_cases ha1 : env.avail1 = true
    · rw [if_pos ha1]
      by_cases ha2 : env.avail2 = true
      · rw [if_pos ha2]
        dsimp only
        rw [if_neg (fun hc => hc.right ⟨ha1, ha2⟩)]
      · rw [if_neg ha2]
        rw [if_pos ⟨h0, fun hc => ha2 hc.right⟩]
    · rw [if_neg ha1]
      rw [if_pos ⟨h0, fun hc => ha1 hc.left⟩]
  · rw [if_neg h0]
    rw [if_neg (fun hc => h0 hc.left)]

theorem magickSection_dir (env : Env) (opts : ImgOptions)
    (imFiles rasterFiles : List UploadedFile) (dir : List String) (evs : List Ev)
    (x : String) (hx : x ∈ dir) (hnx : x ∉ imFiles.map UploadedFile.path) :
    x ∈ (magickSection env opts imFiles rasterFiles dir evs).2.2.1 := by
  unfold magickSection processWithImageMagick
  by_cases h0 : 0 < imFiles.length
  · rw [if_pos h0]
    by_cases ha1 : env.avail1 = true
    · rw [if_pos ha1]
      by_cases ha2 : env.avail2 = true
      · rw [if_pos ha2]
        dsimp only
        exact runPass_dir env.sizeOf env.magickEncode env.busy (magickCfg opts)
          imFiles dir evs x hx hnx
      · rw [if_neg ha2]
        exact hx
    · rw [if_neg ha1]
      exact hx
  · rw [if_neg h0]
    exact hx

theorem magickSection_length (env : Env) (opts : ImgOptions)
    (imFiles rasterFiles : List UploadedFile) (dir : List String) (evs : List Ev) :
    (magickSection env opts imFiles rasterFiles dir evs).1.length =
      (if 0 < imFiles.length ∧ env.avail1 = true ∧ env.avail2 = true
       then imFiles.length else 0) := by
  unfold magickSection processWithImageMagick
  by_cases h0 : 0 < imFiles.length
  · rw [if_pos h0]
    by_cases ha1 : env.avail1 = true
    · rw [if_pos ha1]
      by_cases ha2 : env.avail2 = true
      · rw [if_pos ha2]
        dsimp only
        rw [runPass_length env.sizeOf env.magickEncode env.busy (magickCfg opts)
          (Or.inl rfl) imFiles dir evs]
        rw [if_pos ⟨h0, ha1, ha2⟩]
      · rw [if_neg ha2]
        rw [if_neg (fun hc => ha2 hc.right.right)]
        rfl
    · rw [if_neg ha1]
      rw [if_neg (fun hc => ha1 hc.right.left)]
      rfl
  · rw [if_neg h0]
    rw [if_neg (fun hc => h0 hc.left)]
    rfl

theorem imFilesOf_subset (files : List UploadedFile) (opts : ImgOptions) :
    ∀ f ∈ imFilesOf files opts, f ∈ files := by
  intro f hf
  unfold imFilesOf at hf
  by_cases h : opts.useImageMagick = true
  · rw [if_pos h] at hf
    exact (List.mem_filter.mp hf).left
  · rw [if_neg h] at hf
    exact absurd hf (List.not_mem_nil f)

theorem rasterFilesOf_subset (files : List UploadedFile) (opts : ImgOptions) :
    ∀ g ∈ rasterFilesOf files opts, g ∈ files :=
  fun _ hf => (List.mem_filter.mp hf).left

theorem imFilesOf_pos_uim (files : List UploadedFile) (opts : ImgOptions)
    (h : 0 < (imFilesOf files opts).length) : opts.useImageMagick = true := by
  by_contra hc
  unfold imFilesOf at h
  rw [if_neg hc] at h
  exact absurd h (by simp)

theorem magickSection_dir_eq (env : Env) (opts : ImgOptions)
    (imFiles rasterFiles : List UploadedFile) (dir : List String) (evs : List Ev)
    (h : ¬(0 < imFiles.length ∧ env.avail1 = true ∧ env.avail2 = true)) :
    (magickSection env opts imFiles rasterFiles dir evs).2.2.1 = dir := by
  unfold magickSection processWithImageMagick
  by_cases h0 : 0 < imFiles.length
  · rw [if_pos h0]
    by_cases ha1 : env.avail1 = true
    · rw [if_pos ha1]
      by_cases ha2 : env.avail2 = true
      · exact absurd ⟨h0, ha1, ha2⟩ h
      · rw [if_neg ha2]
    · rw [if_neg ha1]
  · rw [if_neg h0]

theorem processImages_length_helper (env : Env) (files : List UploadedFile)
    (opts : ImgOptions) (dir : List String) :
    (processImages env files opts dir).1.length =
      (rasterFilesOf files opts).length + (imFilesOf files opts).length
        + (svgFilesOf files).length *
          ((if opts.formats.any (fun f => RASTER_FORMATS.contains f) = true then 1 else 0)
            + (if opts.formats.contains "svg" = true then 1 else 0)) := by
  unfold processImages
  dsimp only
  rw [List.length_append, List.length_append]
  rw [svgSection_length, magickSection_length, magickSection_sharp]
  by_cases hmg : 0 < (imFilesOf files opts).length ∧ env.avail1 = true ∧ env.avail2 = true
  · rw [if_pos hmg]
    rw [if_neg (show ¬(0 < (imFilesOf files opts).length ∧
        ¬(env.avail1 = true ∧ env.avail2 = true)) from
      fun hc => hc.right ⟨hmg.right.left, hmg.right.right⟩)]
    rw [runPass_length env.sizeOf env.encode env.busy (sharpCfg opts) (Or.inl rfl)]
    omega
  · rw [if_neg hmg]
    by_cases hfb : 0 < (imFilesOf files opts).length ∧
        ¬(env.avail1 = true ∧ env.avail2 = true)
    · rw [if_pos hfb]
      rw [runPass_length env.sizeOf env.encode env.busy (sharpCfg opts) (Or.inl rfl)]
      rw [List.length_append]
      omega
    · rw [if_neg hfb]
      rw [runPass_length env.sizeOf env.encode env.busy (sharpCfg opts) (Or.inl rfl)]
      have him0 : (imFilesOf files opts).length = 0 := by
        by_cases hp : 0 < (imFilesOf files opts).length
        · by_cases hA : env.avail1 = true ∧ env.avail2 = true
          · exact absurd ⟨hp, hA.left, hA.right⟩ hmg
          · exact absurd ⟨hp, hA⟩ hfb
        · omega
      omega

theorem three_way_filter_length (p q : UploadedFile → Bool)
    (hdisj : ∀ f, p f = true → q f = false) :
    ∀ l : List UploadedFile,
      (l.filter (fun f => !(p f) && !(q f))).length + (l.filter q).length
        + (l.filter p).length = l.length := by
  intro l
  induction l with
  | nil => rfl
  | cons f rest ih =>
    by_cases hp : p f = true
    · have hq := hdisj f hp
      simp only [List.filter_cons, hp, hq, Bool.not_true, Bool.false_and, Bool.false_eq_true,
        if_false, if_true, ite_true, ite_false, eq_self_iff_true, List.length_cons]
      omega
    · have hp2 : p f = false := by
        cases hc : p f with
        | false => rfl
        | true => exact absurd hc hp
      by_cases hqt : q f = true
      · simp only [List.filter_cons, hp2, hqt, Bool.not_false, Bool.not_true, Bool.true_and,
          Bool.false_eq_true, if_false, if_true, ite_true, ite_false, eq_self_iff_true,
          List.length_cons]
        omega
      · have hq2 : q f = false := by
          cases hc : q f with
          | false => rfl
          | true => exact absurd hc hqt
        simp only [List.filter_cons, hp2, hq2, Bool.not_false, Bool.true_and,
          Bool.false_eq_true, if_false, ite_true, ite_false, eq_self_iff_true, List.length_cons]
        omega

theorem classification_partition (files : List UploadedFile) (opts : ImgOptions) :
    (rasterFilesOf files opts).length + (imFilesOf files opts).length
      + (svgFilesOf files).length = files.length := by
  unfold rasterFilesOf imFilesOf svgFilesOf
  by_cases huim : opts.useImageMagick = true
  · rw [if_pos huim]
    have hcongr : files.filter (fun f =>
        !(isSvgFile f) && (if opts.useImageMagick then !(shouldUseImageMagick f.originalname) else true))
        = files.filter (fun f => !(isSvgFile f) && !(shouldUseImageMagick f.originalname)) := by
      apply List.filter_congr
      intro a _
      rw [huim]
      simp
    rw [hcongr]
    exact three_way_filter_length isSvgFile (fun f => shouldUseImageMagick f.originalname)
      (fun f hf => svg_not_magick f hf) files
  · rw [if_neg huim]
    have huim2 : opts.useImageMagick = false := by
      cases hc : opts.useImageMagick with
      | false => rfl
      | true => exact absurd hc huim
    have hcongr : files.filter (fun f =>
        !(isSvgFile f) && (if opts.useImageMagick then !(shouldUseImageMagick f.originalname) else true))
        = files.filter (fun f => !(isSvgFile f) && !((fun _ : UploadedFile => false) f)) := by
      apply List.filter_congr
      intro a _
      rw [huim2]
      simp
    rw [hcongr]
    have h3 := three_way_filter_length isSvgFile (fun _ => false) (fun _ _ => rfl) files
    have hff : files.filter (fun _ : UploadedFile => false) = [] := by
      induction files with
      | nil => rfl
      | cons g rest ihg => simp [List.filter_cons, ihg]
    rw [hff] at h3
    simpa using h3

theorem processImages_views_helper (env : Env) (files : List UploadedFile) (opts : ImgOptions)
    (dir : List String)
    (hnodup : (files.map UploadedFile.path).Nodup)
    (hin : ∀ f, f ∈ files → f.path ∈ dir) :
    (processImages env files opts dir).1.map view =
      (if 0 < (svgFilesOf files).length ∧
          opts.formats.any (fun f => RASTER_FORMATS.contains f) = true
       then (svgFilesOf files).map
          (passView env.encode (svgRasterCfg opts (opts.formats.contains "svg")).fmts)
       else [])
      ++ (if 0 < (svgFilesOf files).length ∧ opts.formats.contains "svg" = true
       then (svgFilesOf files).map (svgOptView env.svgo)
       else [])
      ++ (if 0 < (imFilesOf files opts).length ∧ env.avail1 = true ∧ env.avail2 = true
       then (imFilesOf files opts).map (passView env.magickEncode (magickCfg opts).fmts)
       else [])
      ++ ((if 0 < (imFilesOf files opts).length ∧ ¬(env.avail1 = true ∧ env.avail2 = true)
          then rasterFilesOf files opts ++ imFilesOf files opts
          else rasterFilesOf files opts).map
            (passView env.encode (sharpCfg opts).fmts)) := by
  unfold processImages
  dsimp only
  rw [List.map_append, List.map_append]
  have hsvg_in : ∀ f, f ∈ svgFilesOf files → f.path ∈ dir :=
    fun f hf => hin f (List.mem_filter.mp hf).left
  have hsvg_nd := svgFilesOf_path_nodup files hnodup
  have him_nd := imFilesOf_path_nodup files opts hnodup
  have him_in_b : ∀ f, f ∈ imFilesOf files opts →
      f.path ∈ (svgSection env opts (svgFilesOf files) dir).2.1 :=
    fun f hf => svgSection_dir env opts _ dir f.path
      (hin f (imFilesOf_subset files opts f hf))
      (imFilesOf_not_svg_path files opts hnodup f hf)
  have hraster_in_b : ∀ f, f ∈ rasterFilesOf files opts →
      f.path ∈ (svgSection env opts (svgFilesOf files) dir).2.1 :=
    fun f hf => svgSection_dir env opts _ dir f.path
      (hin f (rasterFilesOf_subset files opts f hf))
      (rasterFilesOf_not_svg_path files opts hnodup f hf)
  rw [svgSection_views env opts _ dir hsvg_in hsvg_nd]
  rw [magickSection_views env opts _ _ _ _ him_in_b him_nd]
  rw [magickSection_sharp]
  by_cases hmg : 0 < (imFilesOf files opts).length ∧ env.avail1 = true ∧ env.avail2 = true
  · rw [if_neg (show ¬(0 < (imFilesOf files opts).length ∧
        ¬(env.avail1 = true ∧ env.avail2 = true)) from
      fun hc => hc.right ⟨hmg.right.left, hmg.right.right⟩)]
    have huim := imFilesOf_pos_uim files opts hmg.left
    have hsharp_in : ∀ f, f ∈ rasterFilesOf files opts →
        f.path ∈ (magickSection env opts (imFilesOf files opts) (rasterFilesOf files opts)
          (svgSection env opts (svgFilesOf files) dir).2.1
          (svgSection env opts (svgFilesOf files) dir).2.2).2.2.1 :=
      fun f hf => magickSection_dir env opts _ _ _ _ f.path (hraster_in_b f hf)
        (rasterFilesOf_not_magick_path files opts hnodup huim f hf)
    rw [runPass_views env.sizeOf env.encode env.busy (sharpCfg opts) (Or.inl rfl)
      _ _ _ hsharp_in (rasterFilesOf_path_nodup files opts hnodup)]
  · by_cases hfb : 0 < (imFilesOf files opts).length ∧
        ¬(env.avail1 = true ∧ env.avail2 = true)
    · rw [if_pos hfb]
      have huim := imFilesOf_pos_uim files opts hfb.left
      rw [magickSection_dir_eq env opts _ _ _ _ hmg]
      have hsharp_in : ∀ f, f ∈ rasterFilesOf files opts ++ imFilesOf files opts →
          f.path ∈ (svgSection env opts (svgFilesOf files) dir).2.1 := by
        intro f hf
        rcases List.mem_append.mp hf with h | h
        · exact hraster_in_b f h
        · exact him_in_b f h
      have hsharp_nd : ((rasterFilesOf files opts ++ imFilesOf files opts).map
          UploadedFile.path).Nodup := by
        rw [List.map_append, List.nodup_append]
        refine ⟨rasterFilesOf_path_nodup files opts hnodup, him_nd, ?_⟩
        intro x hx1 hx2
        obtain ⟨g, hg, rfl⟩ := List.mem_map.mp hx1
        exact rasterFilesOf_not_magick_path files opts hnodup huim g hg hx2
      rw [runPass_views env.sizeOf env.encode env.busy (sharpCfg opts) (Or.inl rfl)
        _ _ _ hsharp_in hsharp_nd]
    · rw [if_neg hfb]
      rw [magickSection_dir_eq env opts _ _ _ _ hmg]
      rw [runPass_views env.sizeOf env.encode env.busy (sharpCfg opts) (Or.inl rfl)
        _ _ _ hraster_in_b (rasterFilesOf_path_nodup files opts hnodup)]

/-- C1 (amended): the batch result list of `processImages` has one
entry per non-vector input (each ordinary-raster and specialty-raster
file contributes exactly one FileResult, whether processed by
ImageMagick or rerouted to sharp), while each vector (`.svg`) input
contributes one entry per applicable pass — one when a raster format is
requested plus one when `svg` is requested (so two with both, none with
neither); and per-file failure isolation holds: whenever the storage
paths are distinct and all inputs are present, each produced
FileResult's `(name, status, error)` is exactly the closed per-file
outcome of its own pass (first thrown encoder/optimizer error recorded
as `status: 'error'` with its message, `'success'` otherwise),
independent of the failures of every other file in the batch. -/
theorem processImages_batch_contract (env : Env) (files : List UploadedFile)
    (opts : ImgOptions) (dir : List String) :
    ((processImages env files opts dir).1.length =
      (rasterFilesOf files opts).length + (imFilesOf files opts).length
        + (svgFilesOf files).length *
          ((if opts.formats.any (fun f => RASTER_FORMATS.contains f) = true then 1 else 0)
            + (if opts.formats.contains "svg" = true then 1 else 0))) ∧
    ((rasterFilesOf files opts).length + (imFilesOf files opts).length
        + (svgFilesOf files).length = files.length) ∧
    ((files.map UploadedFile.path).Nodup → (∀ f, f ∈ files → f.path ∈ dir) →
      (processImages env files opts dir).1.map view =
        (if 0 < (svgFilesOf files).length ∧
            opts.formats.any (fun f => RASTER_FORMATS.contains f) = true
         then (svgFilesOf files).map
            (passView env.encode (svgRasterCfg opts (opts.formats.contains "svg")).fmts)
         else [])
        ++ (if 0 < (svgFilesOf files).length ∧ opts.formats.contains "svg" = true
         then (svgFilesOf files).map (svgOptView env.svgo)
         else [])
        ++ (if 0 < (imFilesOf files opts).length ∧ env.avail1 = true ∧ env.avail2 = true
         then (imFilesOf files opts).map (passView env.magickEncode (magickCfg opts).fmts)
         else [])
        ++ ((if 0 < (imFilesOf files opts).length ∧ ¬(env.avail1 = true ∧ env.avail2 = true)
            then rasterFilesOf files opts ++ imFilesOf files opts
            else rasterFilesOf files opts).map
              (passView env.encode (sharpCfg opts).fmts))) :=
  ⟨processImages_length_helper env files opts dir, classification_partition files opts,
    fun h1 h2 => processImages_views_helper env files opts dir h1 h2⟩

/-- Witness for C1 (amended): a two-file raster batch in which encoding
the first file throws; the first is recorded as an error with its
message while the second still reports success. -/
theorem processImages_batch_contract_witness :
    (processImages envW [fileX, fileY] webpOpts ["x.png", "y.png"]).1.map view =
      [("x.png", "error", some "boom"), ("y.png", "success", none)] := by
  have h := (processImages_batch_contract envW [fileX, fileY] webpOpts
    ["x.png", "y.png"]).2.2 (by decide) (by decide)
  rw [h]
  decide

/-- C9: when the secondary encoder is unavailable (first availability
probe false) or its whole sub-batch invocation throws (second probe
false, making `processWithImageMagick` throw), every specialty-raster
file is rerouted to the primary (sharp) encoder pass and processed
there — its result is the sharp pipeline's per-file outcome, not a
failure, and the batch is not aborted. -/
theorem magick_unavailable_reroutes_to_sharp (env : Env) (files : List UploadedFile)
    (opts : ImgOptions) (dir : List String)
    (hnodup : (files.map UploadedFile.path).Nodup)
    (hin : ∀ f, f ∈ files → f.path ∈ dir)
    (hunavail : ¬(env.avail1 = true ∧ env.avail2 = true)) :
    (processImages env files opts dir).1.map view =
      (if 0 < (svgFilesOf files).length ∧
          opts.formats.any (fun f => RASTER_FORMATS.contains f) = true
       then (svgFilesOf files).map
          (passView env.encode (svgRasterCfg opts (opts.formats.contains "svg")).fmts)
       else [])
      ++ (if 0 < (svgFilesOf files).length ∧ opts.formats.contains "svg" = true
       then (svgFilesOf files).map (svgOptView env.svgo)
       else [])
      ++ ((rasterFilesOf files opts ++ imFilesOf files opts).map
            (passView env.encode (sharpCfg opts).fmts)) := by
  rw [processImages_views_helper env files opts dir hnodup hin]
  rw [if_neg (show ¬(0 < (imFilesOf files opts).length ∧
      env.avail1 = true ∧ env.avail2 = true) from fun hc => hunavail hc.right)]
  by_cases h0 : 0 < (imFilesOf files opts).length
  · rw [if_pos (show 0 < (imFilesOf files opts).length ∧
      ¬(env.avail1 = true ∧ env.avail2 = true) from ⟨h0, hunavail⟩)]
    rw [List.append_nil]
  · rw [if_neg (show ¬(0 < (imFilesOf files opts).length ∧
      ¬(env.avail1 = true ∧ env.avail2 = true)) from fun hc => h0 hc.left)]
    have hnil : imFilesOf files opts = [] := by
      cases hc : imFilesOf files opts with
      | nil => rfl
      | cons a b =>
        rw [hc] at h0
        exact absurd (by simp) h0
    rw [hnil]
    simp

/-- Witness for C9: one TIFF upload with ImageMagick unavailable is
processed by the sharp pass and succeeds. -/
theorem magick_unavailable_reroutes_witness :
    (processImages envM [fileT] webpOpts ["t.tiff"]).1.map view =
      [("t.tiff", "success", none)] := by
  have h := magick_unavailable_reroutes_to_sharp envM [fileT] webpOpts ["t.tiff"]
    (by decide) (by decide) (by decide)
  rw [h]
  decide
